import Mathlib

/-!
Verification of the CD-ROM image backend (src/dos/cdrom_image.cpp):
track-table construction (AddTrack / LoadCueSheet / LoadIsoFile), the
sector-to-track index (GetTrack), sector reads (ReadSector), and the
playback control path (PlayAudioSector / StopAudio), together with the
track-inquiry calls (GetAudioTracks / GetAudioTrackInfo).

The C++ is shallowly embedded: machine integers are Nat/Int with explicit
wrapping applied exactly where the C++ performs a conversion to a fixed
width (assignment to a uint32_t field, cast to int, and so on).  External
collaborators (the byte-stream track source, the SDL mixer and mutex) are
modelled by the data the code reads from them: a source is its byte
length (plus, for playback, its sample rate / channel count / byte order
and a seek-success oracle), the mixer channel is a pair of booleans
(exists / enabled), and mutex operations are modelled as succeeding.
-/

namespace CdromImage

/-- Wrap a nonnegative value to unsigned 32-bit range (C++ arithmetic on
uint32_t operands). -/
def m32 (n : Nat) : Nat := n % 4294967296

/-- Wrap a possibly-negative value to unsigned 32-bit range (C++
conversion of a signed or wider expression to uint32_t). -/
def w32 (x : Int) : Nat := (x.emod 4294967296).toNat

/-- Wrap a possibly-negative value to unsigned 64-bit range (C++
arithmetic on uint64_t operands). -/
def w64 (x : Int) : Nat := (x.emod 18446744073709551616).toNat

/-- Wrap to unsigned 8-bit range (assignment to a uint8_t field). -/
def m8 (n : Nat) : Nat := n % 256

/-- Reinterpret an unsigned 32-bit value as a signed int (C++
`static_cast<int>` of a uint32_t, gcc wrapping semantics). -/
def castInt32OfNat (n : Nat) : Int :=
  if n % 4294967296 < 2147483648 then ((n % 4294967296 : Nat) : Int)
  else ((n % 4294967296 : Nat) : Int) - 4294967296

/-- Convert a signed/wide expression to C++ int: truncate to the low 32
bits and reinterpret as signed. -/
def i32 (x : Int) : Int := castInt32OfNat (w32 x)

/-- Modelled from the spec: Redbook constants declared in the missing
header cdrom.h.  2048 = cooked sector bytes, 2352 = raw sector bytes,
75 = Redbook frames per second, 2 = minimum table entries ("at least one
real track plus the lead-out sentinel"). -/
def BYTES_PER_COOKED_REDBOOK_FRAME : Nat := 2048

/-- Modelled from the spec: raw sector size in bytes (missing cdrom.h). -/
def BYTES_PER_RAW_REDBOOK_FRAME : Nat := 2352

/-- Modelled from the spec: Redbook frames per second (missing cdrom.h). -/
def REDBOOK_FRAMES_PER_SECOND : Nat := 75

/-- Modelled from the spec: minimum number of table entries for usable
media (missing cdrom.h). -/
def MIN_REDBOOK_TRACKS : Nat := 2

/-- Modelled from the spec: the "maximum valid disc address" bound used
by the GetTrack guard (missing cdrom.h; the upstream header sets the
last addressable sector to 399999). -/
def MAX_REDBOOK_SECTOR : Nat := 399999

/-- A backing track source ("FILE" statement): identified by the FILE
command instance that created it (shared_ptr identity) and carrying the
byte length its getLength() reports. -/
structure MFile where
  id : Nat
  len : Int
deriving DecidableEq, Repr

/-- Byte length of a track's source as AddTrack reads it:
prev.file->getLength().  A null source dereference is undefined
behaviour in the C++; it is modelled as the -1 that the source object
itself would return for an invalid stream. -/
def mfLength : Option MFile → Int
  | none => -1
  | some f => f.len

/-- Modelled from the spec: the Track record of the missing header
cdrom.h (section 3 of the spec: number, start, length, sectorSize, skip,
mode2, attr, source).  start / length / skip are uint32_t fields, number
and attr uint8_t, sectorSize uint16_t; the wrapping of every assignment
to them is written out in the operations below. -/
structure Track where
  file : Option MFile := none
  start : Nat := 0
  length : Nat := 0
  skip : Nat := 0
  sectorSize : Nat := 0
  number : Nat := 0
  attr : Nat := 0
  mode2 : Bool := false
deriving DecidableEq, Repr

/-- Modelled from the spec: minutes/seconds/frames triple (missing
header), three uint8_t fields. -/
structure TMSF where
  min : Nat
  sec : Nat
  fr : Nat
deriving DecidableEq, Repr

/-- Modelled from the spec: frame count to MSF conversion of the missing
header (75 frames per second, 60 seconds per minute; each field is
stored in a uint8_t). -/
def frames_to_msf (f : Nat) : TMSF :=
  { min := m8 (f / 4500), sec := (f / 75) % 60, fr := f % 75 }

/-- The per-branch rounded-up length computation of AddTrack's
different-file branch: C++ `tmp / ss` with truncating int division,
followed by an increment when `tmp % ss != 0`, the result assigned to a
uint32_t.  tmp may be negative (int), so both signs are written out. -/
def diffLen (tmp : Int) (ss : Nat) : Nat :=
  if 0 ≤ tmp then
    let q := tmp.toNat / ss
    if tmp.toNat % ss = 0 then m32 q else m32 (q + 1)
  else
    let q := tmp.natAbs / ss
    if tmp.natAbs % ss = 0 then w32 (-(q : Int)) else w32 (-(q : Int) + 1)

/-- The skipped-frame count of AddTrack (cdrom_image.cpp:1022): frames
between index 0 (prestart, -1 when absent) and index 1 (curr.start). -/
def addTrackSkip (curr : Track) (prestart : Int) : Nat :=
  if 0 ≤ prestart then w32 ((curr.start : Int) - prestart) else 0

/-- The placement arithmetic of AddTrack for a non-first track
(cdrom_image.cpp:1048): the finalized previous-track length, the placed
current track, the new shift and the new totalPregap.  The same-file
branch lays the track out by byte arithmetic inside the shared file; the
different-file branch derives the previous track's length from its
source's byte length (rounded up to whole sectors) and resets the
byte-offset carry. -/
def placeTrack (prev curr : Track) (shift : Int) (totalPregap : Nat)
    (skip currPregap : Nat) : Nat × Track × Int × Nat :=
  if prev.file = curr.file then
    let start1 := w32 ((curr.start : Int) + shift)
    let prevLen := if prev.length = 0
      then w32 ((start1 : Int) + totalPregap - prev.start - skip)
      else prev.length
    let skip1 := m32 (curr.skip + prev.skip + prevLen * prev.sectorSize
                      + skip * curr.sectorSize)
    let tp1 := totalPregap + currPregap
    let start2 := m32 (start1 + tp1)
    (prevLen, { curr with start := start2, skip := skip1 }, shift, tp1)
  else
    let tmp : Int := i32 (w32 (mfLength prev.file - prev.skip))
    let prevLen := diffLen tmp prev.sectorSize
    let start1 := m32 (curr.start + prev.start + prevLen + currPregap)
    let skip1 := m32 (skip * curr.sectorSize)
    let shift1 := i32 (w32 (shift + prev.start + prevLen))
    (prevLen, { curr with start := start1, skip := skip1 }, shift1, currPregap)

/-- CDROM_Interface_Image::AddTrack (cdrom_image.cpp:1019).  Arguments
mirror the C++ signature: the pending track, the running shift (int,
by reference), index-0 prestart (int, -1 when absent), the running
totalPregap and this track's currPregap (both nonnegative frame counts
produced by the cue parser).  Returns the new (tracks, shift,
totalPregap) on success, none when a guard fails.  The debug-only
assertm on the first track's number is a release-mode no-op and is not a
failure path. -/
def addTrack (tracks : List Track) (shift : Int) (totalPregap : Nat)
    (curr : Track) (prestart : Int) (currPregap : Nat) :
    Option (List Track × Int × Nat) :=
  -- frames between index 0 (prestart) and index 1 (curr.start) are skipped
  if 0 ≤ prestart ∧ prestart > castInt32OfNat curr.start then none
  else
    let skip : Nat := addTrackSkip curr prestart
    match tracks.getLast? with
    | none =>
      -- first track: skip converts to bytes, start absorbs the pregap
      let c := { curr with
                 skip := m32 (skip * curr.sectorSize),
                 start := m32 (curr.start + currPregap) }
      some ([c], shift, currPregap)
    | some prev =>
      let pl := placeTrack prev curr shift totalPregap skip currPregap
      if curr.number ≤ 1 ∨ prev.number + 1 ≠ curr.number
         ∨ pl.2.1.start < m32 (prev.start + pl.1) then none
      else
        some (tracks.dropLast ++ [{ prev with length := pl.1 }, pl.2.1],
              pl.2.2.1, pl.2.2.2)

/-- A raw track descriptor as the cue-sheet parser hands it to AddTrack:
the TRACK number, the INDEX 01 frame count, the INDEX 00 frame count
(-1 when absent), the PREGAP frame count, the TRACK-type lookup results
(sectorSize / attr / mode2) and the FILE statement in effect. -/
structure RawTrack where
  number : Nat
  start : Nat
  prestart : Int := -1
  pregap : Nat := 0
  sectorSize : Nat
  attr : Nat
  mode2 : Bool := false
  file : Option MFile
deriving DecidableEq, Repr

/-- The pending Track record LoadCueSheet builds for a descriptor before
calling AddTrack (start and skip freshly reset, length never assigned,
number stored into a uint8_t). -/
def mkTrack (r : RawTrack) : Track :=
  { file := r.file, start := r.start, length := 0, skip := 0,
    sectorSize := r.sectorSize, number := m8 r.number, attr := r.attr,
    mode2 := r.mode2 }

/-- One parser step: finalize a pending descriptor through AddTrack. -/
def cueStep (st : List Track × Int × Nat) (r : RawTrack) :
    Option (List Track × Int × Nat) :=
  addTrack st.1 st.2.1 st.2.2 (mkTrack r) r.prestart r.pregap

/-- The track-table construction of LoadCueSheet (cdrom_image.cpp:879):
fold AddTrack over the descriptors, then append the synthetic lead-out
(number one past the last real track, attr 0, zero start/length, no
source) through one more AddTrack call with prestart -1 and pregap 0.
An empty cue sheet finalizes a default-constructed track numbered 0,
whose lead-out (number 1) then fails the number check, so the result is
none, which is how the empty case is written here. -/
def loadCueTracks (ds : List RawTrack) : Option (List Track) :=
  match ds with
  | [] => none
  | d :: rest => do
    let st ← (d :: rest).foldlM cueStep ([], (0 : Int), (0 : Nat))
    match st.1.getLast? with
    | none => none
    | some lastT =>
      let leadout := { lastT with
                       number := m8 (lastT.number + 1), attr := 0,
                       start := 0, length := 0, file := none }
      let st2 ← addTrack st.1 st.2.1 st.2.2 leadout (-1) 0
      some st2.1

/-- The scan loop of GetTrack (cdrom_image.cpp:666): each candidate's
valid range is [lower bound, start + length), the lower bound starting
at the first track's start and becoming each track's own (uint32) upper
bound as the scan advances. -/
def getTrackScan : List Track → Nat → Nat → Option Track
  | [], _, _ => none
  | t :: rest, lower, sector =>
    let upper := m32 (t.start + t.length)
    if lower ≤ sector ∧ sector < upper then some t
    else getTrackScan rest upper sector

/-- CDROM_Interface_Image::GetTrack (cdrom_image.cpp:651): guard against
an over-large sector, a table with fewer than two entries, or a sector
at or beyond the lead-out's start, then scan.  The C++ returns an
iterator; tracks.end() is modelled as none.  The parameter is a
uint32_t. -/
def getTrack (tracks : List Track) (sector : Nat) : Option Track :=
  match tracks.getLast? with
  | none => none
  | some lastT =>
    if sector > MAX_REDBOOK_SECTOR ∨ tracks.length < MIN_REDBOOK_TRACKS
       ∨ sector ≥ lastT.start then none
    else
      match tracks with
      | [] => none
      | t0 :: _ => getTrackScan tracks t0.start sector

/-- BinaryFile::read (cdrom_image.cpp:74) success: the seek target must
be a valid stream position and the full count must be available; a
negative seek offset fails the seekg and a short read sets the fail
bit. -/
def readOk (f : Option MFile) (seek : Int) (count : Nat) : Bool :=
  match f with
  | none => false
  | some f => decide (0 ≤ seek ∧ seek + count ≤ f.len)

/-- CDROM_Interface_Image::ReadSector (cdrom_image.cpp:705).  The sector
parameter is an unsigned long (64-bit); GetTrack receives it truncated
to uint32_t.  The byte seek offset is computed in unsigned arithmetic
and stored in an int. -/
def readSector (tracks : List Track) (raw : Bool) (sector : Nat) : Bool :=
  match getTrack tracks (sector % 4294967296) with
  | none => false
  | some t =>
    match t.file with
    | none => false
    | some f =>
      let seek : Int :=
        i32 (w32 ((t.skip : Int) + ((sector : Int) - t.start) * t.sectorSize))
      let count := if raw then BYTES_PER_RAW_REDBOOK_FRAME
                   else BYTES_PER_COOKED_REDBOOK_FRAME
      if t.sectorSize ≠ BYTES_PER_RAW_REDBOOK_FRAME ∧ raw then false
      else
        let seek1 := seek
          + (if t.sectorSize = BYTES_PER_RAW_REDBOOK_FRAME ∧ ¬t.mode2 ∧ ¬raw
             then 16 else 0)
          + (if t.mode2 ∧ ¬raw then 24 else 0)
        readOk (some f) seek1 count

/-- Playback-relevant properties of a track source, as PlayAudioSector
queries them: sample rate (getRate, uint32), channel count
(getChannels), whether getEndian reports the native AUDIO_S16SYS order,
and whether a seek to a given uint32 byte offset succeeds. -/
structure FileProps where
  rate : Nat
  channels : Nat
  endianSys : Bool
  seekOk : Nat → Bool

/-- The four AddSamples member functions a playback session can select
(stereo/mono crossed with native/nonnative byte order). -/
inductive MixFn where
  | s16 | m16 | s16nn | m16nn
deriving DecidableEq, Repr

/-- The shared imagePlayer state (cdrom_image.cpp:216): the playback
session fields plus the mixer channel, the latter modelled by whether it
was allocated and whether output is enabled.  startSector and
totalRedbookFrames are uint32_t fields, the track-frame counters
uint64_t. -/
structure Player where
  trackFile : Option MFile := none
  channelExists : Bool := true
  channelEnabled : Bool := false
  channelRate : Nat := 0
  addFrames : MixFn := MixFn.s16
  startSector : Nat := 0
  totalRedbookFrames : Nat := 0
  playedTrackFrames : Nat := 0
  totalTrackFrames : Nat := 0
  isPlaying : Bool := false
  isPaused : Bool := false
deriving DecidableEq, Repr

/-- CDROM_Interface_Image::StopAudio (cdrom_image.cpp:586) effect on the
player: clear the playing and paused flags and disable the mixer
channel when one exists.  No other field is touched. -/
def stopAudioState (p : Player) : Player :=
  { p with
    isPlaying := false, isPaused := false,
    channelEnabled := if p.channelExists then false else p.channelEnabled }

/-- CDROM_Interface_Image::StopAudio returns true unconditionally. -/
def stopAudio (p : Player) : Bool × Player := (true, stopAudioState p)

/-- The required-PCM-frame total of PlayAudioSector
(cdrom_image.cpp:532): (track_rate * totalRedbookFrames +
REDBOOK_FRAMES_PER_SECOND - 1) / REDBOOK_FRAMES_PER_SECOND, computed in
uint64_t arithmetic. -/
def totalTrackFramesCalc (rate len : Nat) : Nat :=
  (rate * len + (REDBOOK_FRAMES_PER_SECOND - 1)) % 18446744073709551616
    / REDBOOK_FRAMES_PER_SECOND

/-- CDROM_Interface_Image::PlayAudioSector (cdrom_image.cpp:452).  start
and len are uint64_t.  GetTrack receives start truncated to uint32_t.
relative_start is an int initialized from the uint64 difference
start - track->start; a pregap request (negative relative_start) does
`len -= relative_start` in uint64 arithmetic.  The byte offset adds the
clamped relative start times the sector size to the track's skip, in
unsigned arithmetic narrowed to an int.  Mutex lock/unlock are modelled
as succeeding; a failed source seek stops audio and fails.  props maps
a track source to its playback properties (external collaborator). -/
def playAudioSector (tracks : List Track) (props : MFile → FileProps)
    (p : Player) (start len : Nat) : Bool × Player :=
  match getTrack tracks (start % 4294967296) with
  | none => (false, stopAudioState p)
  | some t =>
    match t.file with
    | none => (false, stopAudioState p)
    | some f =>
      if len = 0 ∨ t.attr = 0x40 ∨ ¬p.channelExists then
        (false, stopAudioState p)
      else
        let pr := props f
        let relStart : Int := castInt32OfNat (w32 ((start : Int) - t.start))
        let len1 : Nat := if relStart < 0 then w64 ((len : Int) - relStart)
                          else len
        let hi : Int := castInt32OfNat (w32 ((t.length : Int) - 1))
        let clamped : Int := if relStart < 0 then 0
                             else if hi < relStart then hi else relStart
        let offset : Int := i32 (w32 ((t.skip : Int) + clamped * t.sectorSize))
        if ¬ pr.seekOk (w32 offset) then (false, stopAudioState p)
        else
          let mix := if pr.endianSys then
                       (if pr.channels = 2 then MixFn.s16 else MixFn.m16)
                     else
                       (if pr.channels = 2 then MixFn.s16nn else MixFn.m16nn)
          (true, { p with
                   trackFile := some f,
                   startSector := m32 start,
                   totalRedbookFrames := m32 len1,
                   isPlaying := true,
                   isPaused := false,
                   addFrames := mix,
                   playedTrackFrames := 0,
                   totalTrackFrames := totalTrackFramesCalc pr.rate (m32 len1),
                   channelRate := m32 pr.rate,
                   channelEnabled := true })

/-- A single-file image for the ISO sniffing path: its byte length and
its content (byte value at each offset). -/
structure ByteFile where
  len : Nat
  byte : Nat → Nat

/-- CDROM_Interface_Image::CanReadPVD (cdrom_image.cpp:845): read 2048
bytes at byte offset 16 * sectorSize (plus 16 for raw non-mode2, plus 24
for mode2) into a zero-initialized buffer (a short or failed read leaves
the missing suffix zero), then accept either the standard identifier
(byte 0 = 1, bytes 1..5 = "CD001", byte 6 = 1) or the legacy/High Sierra
variant (byte 8 = 1, bytes 9..13 = "CDROM", byte 14 = 1). -/
def canReadPVD (f : ByteFile) (sectorSize : Nat) (mode2 : Bool) : Bool :=
  let seek := 16 * sectorSize
    + (if sectorSize = BYTES_PER_RAW_REDBOOK_FRAME ∧ ¬mode2 then 16 else 0)
    + (if mode2 then 24 else 0)
  let pvd : Nat → Nat := fun i => if seek + i < f.len then f.byte (seek + i) else 0
  (pvd 0 = 1 ∧ pvd 1 = 67 ∧ pvd 2 = 68 ∧ pvd 3 = 48 ∧ pvd 4 = 48
     ∧ pvd 5 = 49 ∧ pvd 6 = 1)
  ∨ (pvd 8 = 1 ∧ pvd 9 = 67 ∧ pvd 10 = 68 ∧ pvd 11 = 82 ∧ pvd 12 = 79
     ∧ pvd 13 = 77 ∧ pvd 14 = 1)

/-- The data-track sector count LoadIsoFile computes at line 827:
BinaryFile::getLength() truncates the stream position through
static_cast<int> (cdrom_image.cpp:95), that int is divided by the
sector size with C++ truncating division, and the quotient is stored
into the uint32_t length field.  For a file of 2^31 bytes or more the
cast wraps negative and the stored value is not the file's sector
count. -/
def isoTrackLength (f : ByteFile) (ss : Nat) : Nat :=
  let lenI := castInt32OfNat f.len
  if 0 ≤ lenI then m32 (lenI.toNat / ss)
  else w32 (-((lenI.natAbs / ss : Nat) : Int))

/-- The data track LoadIsoFile builds on a successful probe
(cdrom_image.cpp:808): number 1, attr 0x40, length = the
int-truncated getLength() divided by the sector size (line 827). -/
def isoDataTrack (fid : Nat) (f : ByteFile) (ss : Nat) (m2 : Bool) : Track :=
  { file := some { id := fid, len := (f.len : Int) }, start := 0,
    length := isoTrackLength f ss, skip := 0, sectorSize := ss,
    number := 1, attr := 0x40, mode2 := m2 }

/-- The lead-out LoadIsoFile appends (cdrom_image.cpp:838): a
default-constructed track with number 2 and start at the data track's
(already wrapped) length field (line 840). -/
def isoLeadout (f : ByteFile) (ss : Nat) : Track :=
  { number := 2, start := isoTrackLength f ss }

/-- CDROM_Interface_Image::LoadIsoFile (cdrom_image.cpp:797): probe the
four (sectorSize, mode2) geometries in order, build the single data
track (number 1, attr 0x40, length from the int-truncated getLength()
divided by the sector size), and append the default-constructed
lead-out (number 2) starting at that track's length.  fid identifies
the freshly opened BinaryFile. -/
def loadIsoFile (fid : Nat) (f : ByteFile) : Option (List Track) :=
  let geom : Option (Nat × Bool) :=
    if canReadPVD f BYTES_PER_COOKED_REDBOOK_FRAME false then
      some (BYTES_PER_COOKED_REDBOOK_FRAME, false)
    else if canReadPVD f BYTES_PER_RAW_REDBOOK_FRAME false then
      some (BYTES_PER_RAW_REDBOOK_FRAME, false)
    else if canReadPVD f 2336 true then some (2336, true)
    else if canReadPVD f BYTES_PER_RAW_REDBOOK_FRAME true then
      some (BYTES_PER_RAW_REDBOOK_FRAME, true)
    else none
  match geom with
  | none => none
  | some (ss, m2) => some [isoDataTrack fid f ss m2, isoLeadout f ss]

/-- CDROM_Interface_Image::GetAudioTracks (cdrom_image.cpp:303): with at
least MIN_REDBOOK_TRACKS entries, report the first track's number, the
second-to-last entry's number (the last playable track) and the
lead-out MSF (its start plus the 150-frame lead-in offset). -/
def getAudioTracks (tracks : List Track) : Option (Nat × Nat × TMSF) :=
  match tracks with
  | t0 :: rest =>
    if (t0 :: rest).length < MIN_REDBOOK_TRACKS then none
    else
      match (t0 :: rest).getLast? with
      | none => none
      | some lastT =>
        some (t0.number, ((t0 :: rest).getD ((t0 :: rest).length - 2) t0).number,
              frames_to_msf (m32 (lastT.start + 150)))
  | [] => none

/-- CDROM_Interface_Image::GetAudioTrackInfo (cdrom_image.cpp:332):
reject a table with fewer than MIN_REDBOOK_TRACKS entries or a requested
number outside [1, 99] or not below the entry count; otherwise report
the indexed track's start MSF (plus the 150-frame offset) and attribute
byte. -/
def getAudioTrackInfo (tracks : List Track) (n : Nat) : Option (TMSF × Nat) :=
  if tracks.length < MIN_REDBOOK_TRACKS ∨ n < 1 ∨ n > 99
     ∨ n ≥ tracks.length then none
  else
    let t := tracks.getD (n - 1) {}
    some (frames_to_msf (m32 (t.start + 150)), t.attr)

/-! Arithmetic facts about the wrapping helpers, used to discharge the
identities when values are known to be in range. -/

theorem m32_small {n : Nat} (h : n < 4294967296) : m32 n = n :=
  Nat.mod_eq_of_lt h

theorem w32_coe_nat {n : Nat} (h : n < 4294967296) : w32 (n : Int) = n := by
  unfold w32
  have he : (n : Int).emod 4294967296 = (n : Int) :=
    Int.emod_eq_of_lt (by positivity) (by exact_mod_cast h)
  rw [he]
  exact Int.toNat_natCast n

theorem w32_sub_nat {a b : Nat} (hba : b ≤ a) (h : a - b < 4294967296) :
    w32 ((a : Int) - b) = a - b := by
  have he : (a : Int) - b = ((a - b : Nat) : Int) := by
    push_cast [hba]; ring
  rw [he, w32_coe_nat h]

theorem castInt32OfNat_small {n : Nat} (h : n < 2147483648) :
    castInt32OfNat n = n := by
  unfold castInt32OfNat
  rw [Nat.mod_eq_of_lt (by omega), if_pos h]

theorem i32_coe_nat {n : Nat} (h : n < 2147483648) : i32 (n : Int) = n := by
  unfold i32
  rw [w32_coe_nat (by omega), castInt32OfNat_small h]

/-- The rounding-up division of AddTrack's different-file branch, for a
nonnegative byte remainder: it computes the exact ceiling when the
result is in uint32 range. -/
theorem diffLen_nonneg {L ss : Nat}
    (hsmall : L / ss + 1 < 4294967296) :
    diffLen (L : Int) ss = L / ss + (if L % ss = 0 then 0 else 1) := by
  unfold diffLen
  rw [if_pos (by positivity)]
  simp only [Int.toNat_natCast]
  split
  · next hmod => rw [m32_small (by omega)]; omega
  · next hmod => rw [m32_small (by omega)]

/-- The ceiling property of the rounded-up length: it is the least
sector count covering L bytes. -/
theorem ceil_len_spec {L ss : Nat} (hss : 0 < ss) :
    L ≤ (L / ss + (if L % ss = 0 then 0 else 1)) * ss
    ∧ (L / ss + (if L % ss = 0 then 0 else 1)) * ss < L + ss := by
  have h1 := Nat.div_add_mod L ss
  have h2 : L % ss < ss := Nat.mod_lt _ hss
  have e0 : (L / ss + 0) * ss = ss * (L / ss) := by ring
  have e1 : (L / ss + 1) * ss = ss * (L / ss) + ss := by ring
  split
  · next hmod =>
    rw [e0]
    generalize ss * (L / ss) = k at h1 ⊢
    omega
  · next hmod =>
    rw [e1]
    generalize ss * (L / ss) = k at h1 ⊢
    omega

/-- Evaluation of placeTrack's different-file branch. -/
theorem placeTrack_diff (prev curr : Track) (shift : Int) (tp skip pg : Nat)
    (hfile : ¬ prev.file = curr.file) :
    placeTrack prev curr shift tp skip pg =
      (diffLen (i32 (w32 (mfLength prev.file - prev.skip))) prev.sectorSize,
       { curr with
         start := m32 (curr.start + prev.start
           + diffLen (i32 (w32 (mfLength prev.file - prev.skip)))
               prev.sectorSize + pg),
         skip := m32 (skip * curr.sectorSize) },
       i32 (w32 (shift + prev.start
         + diffLen (i32 (w32 (mfLength prev.file - prev.skip)))
             prev.sectorSize)),
       pg) := by
  unfold placeTrack
  rw [if_neg hfile]

/-- Evaluation of placeTrack's same-file branch. -/
theorem placeTrack_same (prev curr : Track) (shift : Int) (tp skip pg : Nat)
    (hfile : prev.file = curr.file) :
    placeTrack prev curr shift tp skip pg =
      (let start1 := w32 ((curr.start : Int) + shift)
       let prevLen := if prev.length = 0
         then w32 ((start1 : Int) + tp - prev.start - skip)
         else prev.length
       (prevLen,
        { curr with
          start := m32 (start1 + (tp + pg)),
          skip := m32 (curr.skip + prev.skip + prevLen * prev.sectorSize
                       + skip * curr.sectorSize) },
        shift, tp + pg)) := by
  unfold placeTrack
  rw [if_pos hfile]

/-- Evaluation of addTrack when a previous track exists and the
prestart guard passes. -/
theorem addTrack_last (tracks : List Track) (shift : Int) (tp : Nat)
    (curr : Track) (prestart : Int) (pg : Nat) (prev : Track)
    (hlast : tracks.getLast? = some prev)
    (hguard : ¬(0 ≤ prestart ∧ prestart > castInt32OfNat curr.start)) :
    addTrack tracks shift tp curr prestart pg =
      (let pl := placeTrack prev curr shift tp (addTrackSkip curr prestart) pg
       if curr.number ≤ 1 ∨ prev.number + 1 ≠ curr.number
          ∨ pl.2.1.start < m32 (prev.start + pl.1) then none
       else some (tracks.dropLast ++ [{ prev with length := pl.1 }, pl.2.1],
                  pl.2.2.1, pl.2.2.2)) := by
  unfold addTrack
  rw [if_neg hguard, hlast]

/-- Evaluation of addTrack on an empty table (first track). -/
theorem addTrack_first (shift : Int) (tp : Nat) (curr : Track)
    (prestart : Int) (pg : Nat)
    (hguard : ¬(0 ≤ prestart ∧ prestart > castInt32OfNat curr.start)) :
    addTrack [] shift tp curr prestart pg =
      some ([{ curr with
               skip := m32 (addTrackSkip curr prestart * curr.sectorSize),
               start := m32 (curr.start + pg) }], shift, pg) := by
  unfold addTrack
  rw [if_neg hguard]
  rfl

/-- Unfolding of the cue-sheet build on a nonempty descriptor list: fold
the AddTrack steps, then append the lead-out. -/
theorem loadCueTracks_eq (ds : List RawTrack) (hne : ds ≠ []) :
    loadCueTracks ds
      = (ds.foldlM cueStep ([], (0 : Int), (0 : Nat))).bind (fun st =>
          match st.1.getLast? with
          | none => none
          | some lastT =>
            (addTrack st.1 st.2.1 st.2.2
              { lastT with
                number := m8 (lastT.number + 1), attr := 0,
                start := 0, length := 0, file := none } (-1) 0).bind
              (fun st2 => some st2.1)) := by
  cases ds with
  | nil => exact absurd rfl hne
  | cons d rest => rfl

/-! Invariants of the built track table, established by induction over
the AddTrack fold. -/

/-- Adjacent tracks have consecutive numbers. -/
def chainNum (a b : Track) : Prop := b.number = a.number + 1

/-- Adjacent tracks satisfy the AddTrack consistency check: the (uint32)
end of one track does not exceed the next track's start. -/
def chainUpper (a b : Track) : Prop := m32 (a.start + a.length) ≤ b.start

/-- The inductive invariant of the table under construction: both
adjacency chains, machine-range field bounds, and (once a second track
exists) a first track numbered at least 1. -/
def TableInv (ts : List Track) : Prop :=
  ts.Chain' chainNum ∧ ts.Chain' chainUpper
  ∧ (∀ t ∈ ts, t.start < 4294967296 ∧ t.length < 4294967296 ∧ t.number < 256)
  ∧ (∀ t0, ts.head? = some t0 → 2 ≤ ts.length → 1 ≤ t0.number)

theorem m32_lt (n : Nat) : m32 n < 4294967296 := Nat.mod_lt _ (by norm_num)

theorem w32_lt (x : Int) : w32 x < 4294967296 := by
  unfold w32
  have h1 : 0 ≤ x.emod 4294967296 := Int.emod_nonneg x (by norm_num)
  have h2 : x.emod 4294967296 < 4294967296 := Int.emod_lt_of_pos x (by norm_num)
  omega

theorem diffLen_lt (tmp : Int) (ss : Nat) : diffLen tmp ss < 4294967296 := by
  unfold diffLen
  split <;> split
  · exact m32_lt _
  · exact m32_lt _
  · exact w32_lt _
  · exact w32_lt _

/-- The placed current track only changes start and skip, both to
uint32-range values. -/
theorem placeTrack_snd (prev curr : Track) (shift : Int) (tp skip pg : Nat) :
    ∃ x y, (placeTrack prev curr shift tp skip pg).2.1
        = { curr with start := x, skip := y }
      ∧ x < 4294967296 ∧ y < 4294967296 := by
  unfold placeTrack
  split
  · exact ⟨_, _, rfl, m32_lt _, m32_lt _⟩
  · exact ⟨_, _, rfl, m32_lt _, m32_lt _⟩

/-- The finalized previous-track length stays in uint32 range. -/
theorem placeTrack_fst (prev curr : Track) (shift : Int) (tp skip pg : Nat)
    (hp : prev.length < 4294967296) :
    (placeTrack prev curr shift tp skip pg).1 < 4294967296 := by
  unfold placeTrack
  split
  · dsimp only
    split
    · exact w32_lt _
    · exact hp
  · exact diffLen_lt _ _

/-- Replacing the last element of a chain by one with the same
R-relevant data and appending a new R-related element preserves
Chain'. -/
theorem chain'_replace_last {R : Track → Track → Prop} (l : List Track)
    (prev prev' c : Track) (hl : l.getLast? = some prev)
    (hch : l.Chain' R) (hpres : ∀ x, R x prev → R x prev')
    (hnew : R prev' c) :
    (l.dropLast ++ [prev', c]).Chain' R := by
  have hne : l ≠ [] := by
    intro h; rw [h] at hl; exact absurd hl (by simp)
  have hdecomp : l.dropLast ++ [prev] = l :=
    List.dropLast_append_getLast? prev hl
  rw [← hdecomp] at hch
  rw [List.chain'_append] at hch
  rw [List.chain'_append]
  refine ⟨hch.1, List.chain'_cons.mpr ⟨hnew, List.chain'_singleton c⟩, ?_⟩
  intro x hx y hy
  simp only [List.head?_cons, Option.mem_def, Option.some.injEq] at hy
  subst hy
  exact hpres x (hch.2.2 x hx prev (by simp))

/-- AddTrack preserves the table invariant and grows the table by one. -/
theorem addTrack_inv (tracks : List Track) (shift : Int) (tp : Nat)
    (curr : Track) (prestart : Int) (pg : Nat)
    (ts' : List Track) (s' : Int) (tp' : Nat)
    (hinv : TableInv tracks)
    (hnum : curr.number < 256) (hlen : curr.length < 4294967296)
    (hadd : addTrack tracks shift tp curr prestart pg = some (ts', s', tp')) :
    TableInv ts' ∧ ts'.length = tracks.length + 1 := by
  unfold addTrack at hadd
  split at hadd
  · exact absurd hadd (by simp)
  · revert hadd
    cases hlast : tracks.getLast? with
    | none =>
      intro hadd
      dsimp only at hadd
      obtain ⟨h1, -, -⟩ := Prod.mk.injEq .. ▸ Option.some.inj hadd
      have hnil : tracks = [] := List.getLast?_eq_none_iff.mp hlast
      subst hnil
      refine ⟨⟨?_, ?_, ?_, ?_⟩, by rw [← h1]; rfl⟩
      · rw [← h1]; exact List.chain'_singleton _
      · rw [← h1]; exact List.chain'_singleton _
      · rw [← h1]
        intro t ht
        simp only [List.mem_singleton] at ht
        subst ht
        exact ⟨m32_lt _, hlen, hnum⟩
      · rw [← h1]
        intro t0 ht0 hlen2
        simp at hlen2
    | some prev =>
      intro hadd
      dsimp only at hadd
      split at hadd
      · exact absurd hadd (by simp)
      · next hchk =>
        push_neg at hchk
        obtain ⟨hn1, hn2, hn3⟩ := hchk
        obtain ⟨h1, -, -⟩ := Prod.mk.injEq .. ▸ Option.some.inj hadd
        obtain ⟨px, py, hpc, hpx, hpy⟩ :=
          placeTrack_snd prev curr shift tp (addTrackSkip curr prestart) pg
        have hprevmem : prev ∈ tracks := by
          have hne : tracks ≠ [] := by
            intro h; rw [h] at hlast; exact absurd hlast (by simp)
          have := List.getLast?_eq_getLast_of_ne_nil hne
          rw [this] at hlast
          exact (Option.some.inj hlast) ▸ List.getLast_mem hne
        have hprevlen : prev.length < 4294967296 :=
          (hinv.2.2.1 prev hprevmem).2.1
        have hplfst := placeTrack_fst prev curr shift tp
          (addTrackSkip curr prestart) pg hprevlen
        have hlenEq : ts'.length = tracks.length + 1 := by
          rw [← h1]
          have hne : tracks ≠ [] := by
            intro h; rw [h] at hlast; exact absurd hlast (by simp)
          rw [List.length_append, List.length_dropLast]
          have := List.length_pos.mpr hne
          simp only [List.length_cons, List.length_nil]
          omega
        refine ⟨⟨?_, ?_, ?_, ?_⟩, hlenEq⟩
        · rw [← h1]
          refine chain'_replace_last tracks prev _ _ hlast hinv.1 ?_ ?_
          · intro x hx
            exact hx
          · show (placeTrack prev curr shift tp
              (addTrackSkip curr prestart) pg).2.1.number
              = prev.number + 1
            rw [hpc]
            exact hn2.symm
        · rw [← h1]
          refine chain'_replace_last tracks prev _ _ hlast hinv.2.1 ?_ ?_
          · intro x hx
            exact hx
          · show m32 (prev.start
              + (placeTrack prev curr shift tp
                  (addTrackSkip curr prestart) pg).1)
              ≤ (placeTrack prev curr shift tp
                  (addTrackSkip curr prestart) pg).2.1.start
            exact hn3
        · rw [← h1]
          intro t ht
          rcases List.mem_append.mp ht with hmem | hmem
          · exact hinv.2.2.1 t (List.dropLast_subset _ hmem)
          · simp only [List.mem_cons, List.mem_singleton] at hmem
            rcases hmem with rfl | rfl | hfalse
            · exact ⟨(hinv.2.2.1 prev hprevmem).1, hplfst,
                (hinv.2.2.1 prev hprevmem).2.2⟩
            · rw [hpc]
              exact ⟨hpx, hlen, hnum⟩
            · exact absurd hfalse (List.not_mem_nil t)
        · rw [← h1]
          intro t0 ht0 hlen2
          cases hdl : tracks.dropLast with
          | nil =>
            rw [hdl] at ht0
            simp only [List.nil_append, List.head?_cons,
              Option.some.injEq] at ht0
            subst ht0
            show 1 ≤ prev.number
            omega
          | cons d rest =>
            rw [hdl] at ht0
            simp only [List.cons_append, List.head?_cons,
              Option.some.injEq] at ht0
            subst ht0
            have hhead : tracks.head? = some d := by
              have hne : tracks ≠ [] := by
                intro h; rw [h] at hlast; exact absurd hlast (by simp)
              cases tracks with
              | nil => exact absurd rfl hne
              | cons a l =>
                cases l with
                | nil => simp at hdl
                | cons b l2 =>
                  simp only [List.dropLast_cons₂] at hdl
                  obtain ⟨rfl, -⟩ := List.cons.injEq .. ▸ hdl
                  rfl
            have hlen2' : 2 ≤ tracks.length := by
              have := congrArg List.length hdl
              rw [List.length_dropLast] at this
              simp only [List.length_cons] at this
              omega
            exact hinv.2.2.2 d hhead hlen2'

/-- The cue-sheet fold preserves the table invariant, each step adding
one track. -/
theorem foldlM_cueStep_inv (ds : List RawTrack) :
    ∀ (st : List Track × Int × Nat) (st' : List Track × Int × Nat),
      TableInv st.1 →
      ds.foldlM cueStep st = some st' →
      TableInv st'.1 ∧ st'.1.length = st.1.length + ds.length := by
  induction ds with
  | nil =>
    intro st st' hinv hfold
    obtain rfl := Option.some.inj hfold
    exact ⟨hinv, rfl⟩
  | cons d rest ih =>
    intro st st' hinv hfold
    rw [List.foldlM_cons] at hfold
    cases hstep : cueStep st d with
    | none => rw [hstep] at hfold; exact absurd hfold (by simp)
    | some st1 =>
      rw [hstep] at hfold
      have hstep' : addTrack st.1 st.2.1 st.2.2 (mkTrack d) d.prestart d.pregap
          = some (st1.1, st1.2.1, st1.2.2) := hstep
      have h1 := addTrack_inv st.1 st.2.1 st.2.2 (mkTrack d) d.prestart
        d.pregap st1.1 st1.2.1 st1.2.2 hinv
        (by unfold mkTrack m8; exact Nat.mod_lt _ (by norm_num))
        (by unfold mkTrack; norm_num) hstep'
      have h2 := ih st1 st' h1.1 hfold
      refine ⟨h2.1, ?_⟩
      rw [h2.2, h1.2]
      simp only [List.length_cons]
      omega

/-- The invariant for the empty starting table. -/
theorem tableInv_nil : TableInv [] := by
  refine ⟨List.chain'_nil, List.chain'_nil, ?_, ?_⟩
  · intro t ht; exact absurd ht (List.not_mem_nil t)
  · intro t0 ht0; exact absurd ht0 (by simp)

/-- Any table built from a cue sheet satisfies the invariant and has at
least the one real track plus the lead-out. -/
theorem loadCueTracks_inv (ds : List RawTrack) (ts : List Track)
    (h : loadCueTracks ds = some ts) : TableInv ts ∧ 2 ≤ ts.length := by
  have hne : ds ≠ [] := by
    intro hnil; rw [hnil] at h; exact Option.noConfusion h
  rw [loadCueTracks_eq ds hne] at h
  cases hfold : ds.foldlM cueStep ([], (0 : Int), (0 : Nat)) with
  | none => rw [hfold] at h; exact absurd h (by simp)
  | some st =>
    rw [hfold] at h
    dsimp only [Option.bind] at h
    have hinv := foldlM_cueStep_inv ds ([], (0 : Int), (0 : Nat)) st
      tableInv_nil hfold
    revert h
    cases hgl : st.1.getLast? with
    | none => intro h; exact Option.noConfusion h
    | some lastT =>
      intro h
      dsimp only at h
      cases haddl : addTrack st.1 st.2.1 st.2.2
          { lastT with
            number := m8 (lastT.number + 1), attr := 0,
            start := 0, length := 0, file := none } (-1) 0 with
      | none => rw [haddl] at h; exact absurd h (by simp)
      | some st2 =>
        rw [haddl] at h
        simp only [Option.bind_some, Option.some.injEq] at h
        subst h
        have h2 := addTrack_inv st.1 st.2.1 st.2.2
          { lastT with
            number := m8 (lastT.number + 1), attr := 0,
            start := 0, length := 0, file := none } (-1) 0 st2.1 st2.2.1
          st2.2.2 hinv.1 (Nat.mod_lt _ (by norm_num))
          (by norm_num) (by rw [haddl])
        refine ⟨h2.1, ?_⟩
        rw [h2.2]
        have hfoldlen := hinv.2
        have hdslen : 1 ≤ ds.length := by
          cases ds with
          | nil => exact absurd rfl hne
          | cons a l => simp
        omega

/-- The stored ISO track length is a uint32 value. -/
theorem isoTrackLength_lt (f : ByteFile) (ss : Nat) :
    isoTrackLength f ss < 4294967296 := by
  unfold isoTrackLength
  dsimp only
  split
  · exact m32_lt _
  · exact w32_lt _

/-- For files below 2^31 bytes the int truncation is the identity and
the stored length is the file's sector count. -/
theorem isoTrackLength_small (f : ByteFile) (ss : Nat)
    (h : f.len < 2147483648) :
    isoTrackLength f ss = f.len / ss := by
  unfold isoTrackLength
  dsimp only
  rw [castInt32OfNat_small h]
  rw [if_pos (by positivity)]
  rw [Int.toNat_natCast]
  exact m32_small (by
    have := Nat.div_le_self f.len ss
    omega)

/-- The two-entry ISO table satisfies the invariant. -/
theorem isoPair_inv (fid : Nat) (f : ByteFile) (ss : Nat) (m2 : Bool) :
    TableInv [isoDataTrack fid f ss m2, isoLeadout f ss] := by
  refine ⟨List.chain'_pair.mpr rfl, List.chain'_pair.mpr ?_, ?_, ?_⟩
  · show m32 ((isoDataTrack fid f ss m2).start
      + (isoDataTrack fid f ss m2).length) ≤ (isoLeadout f ss).start
    unfold isoDataTrack isoLeadout
    dsimp only
    rw [Nat.zero_add, m32_small (isoTrackLength_lt f ss)]
  · intro t ht
    rcases List.mem_cons.mp ht with rfl | ht2
    · exact ⟨by norm_num [isoDataTrack], isoTrackLength_lt f ss,
        by norm_num [isoDataTrack]⟩
    · rcases List.mem_singleton.mp ht2 with rfl
      exact ⟨isoTrackLength_lt f ss, by norm_num [isoLeadout],
        by norm_num [isoLeadout]⟩
  · intro t0 ht0 hl2
    simp only [List.head?_cons, Option.some.injEq] at ht0
    subst ht0
    norm_num [isoDataTrack]

/-- Any table built by the ISO sniffer satisfies the invariant and has
exactly the data track plus the lead-out. -/
theorem loadIsoFile_inv (fid : Nat) (f : ByteFile) (ts : List Track)
    (h : loadIsoFile fid f = some ts) : TableInv ts ∧ 2 ≤ ts.length := by
  unfold loadIsoFile at h
  dsimp only at h
  split_ifs at h with h1 h2 h3 h4 <;>
    · dsimp only at h
      obtain rfl := (Option.some.inj h).symm
      exact ⟨isoPair_inv _ _ _ _, by norm_num⟩

/-- The lower bound GetTrack's scan uses for the i-th candidate: the
passed-in initial bound for the first track, and each predecessor's
(uint32) upper bound afterwards. -/
def scanLower (lower : Nat) (ts : List Track) : Nat → Nat
  | 0 => lower
  | i + 1 => m32 ((ts.getD i {}).start + (ts.getD i {}).length)

theorem scanLower_cons (lower : Nat) (t : Track) (ts : List Track) (i : Nat) :
    scanLower lower (t :: ts) (i + 1)
      = scanLower (m32 (t.start + t.length)) ts i := by
  cases i with
  | zero => rfl
  | succ k => rfl

theorem getD_mem (ts : List Track) (i : Nat) (hi : i < ts.length) :
    ts.getD i ({} : Track) ∈ ts := by
  rw [List.getD_eq_get _ _ hi]
  exact List.get_mem ts i hi

theorem head?_getD (ts : List Track) (t0 : Track) (h : ts.head? = some t0) :
    ts.getD 0 ({} : Track) = t0 := by
  cases ts with
  | nil => exact Option.noConfusion h
  | cons a l =>
    simp only [List.head?_cons, Option.some.injEq] at h
    subst h
    rfl

theorem getLast?_getD (ts : List Track) (lastT : Track)
    (h : ts.getLast? = some lastT) :
    ts.getD (ts.length - 1) ({} : Track) = lastT := by
  have hne : ts ≠ [] := by
    intro hh; rw [hh] at h; exact Option.noConfusion h
  rw [List.getLast?_eq_getLast_of_ne_nil hne] at h
  obtain rfl := Option.some.inj h
  have hlt : ts.length - 1 < ts.length := by
    have := List.length_pos.mpr hne
    omega
  rw [List.getD_eq_get _ _ hlt]
  exact (List.getLast_eq_get ts hne).symm

/-- An adjacency chain gives the relation at every consecutive index
pair. -/
theorem chain_getD {R : Track → Track → Prop} (ts : List Track)
    (h : ts.Chain' R) :
    ∀ i, i + 1 < ts.length → R (ts.getD i ({} : Track)) (ts.getD (i+1) {}) := by
  intro i hi
  have hx := List.chain'_iff_get.mp h i (by omega)
  rwa [List.getD_eq_get _ _ (by omega), List.getD_eq_get _ _ hi]

/-- Consecutive numbering propagated along the table. -/
theorem number_getD (ts : List Track) (hCN : ts.Chain' chainNum) :
    ∀ i, i < ts.length →
      (ts.getD i ({} : Track)).number = (ts.getD 0 {}).number + i := by
  intro i
  induction i with
  | zero => intro _; rfl
  | succ k ihk =>
    intro hi
    have h1 := ihk (by omega)
    have h2 := chain_getD ts hCN k hi
    unfold chainNum at h2
    omega

/-- Upper bounds are monotone along a plainly chained table. -/
theorem upper_mono (ts : List Track)
    (hch : ∀ i, i + 1 < ts.length →
      (ts.getD i ({} : Track)).start + (ts.getD i {}).length
        ≤ (ts.getD (i+1) {}).start) :
    ∀ i j, j < ts.length → i ≤ j →
      (ts.getD i ({} : Track)).start + (ts.getD i {}).length
        ≤ (ts.getD j {}).start + (ts.getD j {}).length := by
  intro i j
  induction j with
  | zero =>
    intro _ hij
    obtain rfl : i = 0 := by omega
    exact le_rfl
  | succ k ihk =>
    intro hj hij
    rcases Nat.lt_or_ge i (k + 1) with hlt | hge
    · have h1 := ihk (by omega) (by omega)
      have h2 := hch k hj
      omega
    · obtain rfl : i = k + 1 := by omega
      exact le_rfl

/-- Starts are monotone along a plainly chained table. -/
theorem start_mono (ts : List Track)
    (hch : ∀ i, i + 1 < ts.length →
      (ts.getD i ({} : Track)).start + (ts.getD i {}).length
        ≤ (ts.getD (i+1) {}).start) :
    ∀ i j, j < ts.length → i ≤ j →
      (ts.getD i ({} : Track)).start ≤ (ts.getD j {}).start := by
  intro i j
  induction j with
  | zero =>
    intro _ hij
    obtain rfl : i = 0 := by omega
    exact le_rfl
  | succ k ihk =>
    intro hj hij
    rcases Nat.lt_or_ge i (k + 1) with hlt | hge
    · have h1 := ihk (by omega) (by omega)
      have h2 := hch k hj
      omega
    · obtain rfl : i = k + 1 := by omega
      exact le_rfl

/-- Coverage of GetTrack's scan loop: starting at or below the sector,
if the sector lies below the last candidate's upper bound, the scan
finds a track, and its interval contains the sector. -/
theorem getTrackScan_covers :
    ∀ (ts : List Track) (lower sector : Nat),
      ts ≠ [] →
      lower ≤ sector →
      (∀ lastT, ts.getLast? = some lastT →
        sector < m32 (lastT.start + lastT.length)) →
      ∃ i, ∃ (hi : i < ts.length),
        getTrackScan ts lower sector = some (ts.getD i {})
        ∧ scanLower lower ts i ≤ sector
        ∧ sector < m32 ((ts.getD i {}).start + (ts.getD i {}).length) := by
  intro ts
  induction ts with
  | nil => intro lower sector hne; exact absurd rfl hne
  | cons t rest ih =>
    intro lower sector hne hlow hlast
    by_cases hs : sector < m32 (t.start + t.length)
    · refine ⟨0, by simp, ?_, hlow, hs⟩
      unfold getTrackScan
      rw [if_pos ⟨hlow, hs⟩]
      rfl
    · push_neg at hs
      cases rest with
      | nil =>
        have := hlast t (by rfl)
        omega
      | cons t2 rest2 =>
        obtain ⟨i', hi', hscan, hlow', hup'⟩ :=
          ih (m32 (t.start + t.length)) sector (by simp) hs
            (fun lastT hl => hlast lastT (by rwa [List.getLast?_cons_cons]))
        refine ⟨i' + 1, by simpa using Nat.succ_lt_succ hi', ?_, ?_, ?_⟩
        · show getTrackScan (t :: t2 :: rest2) lower sector = _
          unfold getTrackScan
          rw [if_neg (fun hc => absurd hc.2 (Nat.not_lt.mpr hs))]
          exact hscan
        · rw [scanLower_cons]
          exact hlow'
        · exact hup'

/-- Disjointness of the scan intervals: under the monotone chain the
sector lies in at most one candidate interval. -/
theorem scan_unique (ts : List Track) (lower sector : Nat)
    (hplain : ∀ i, i + 1 < ts.length →
      (ts.getD i ({} : Track)).start + (ts.getD i {}).length
        ≤ (ts.getD (i+1) {}).start)
    (hnw : ∀ t ∈ ts, t.start + t.length < 4294967296) :
    ∀ i j, i < ts.length → j < ts.length →
      scanLower lower ts i ≤ sector →
      sector < (ts.getD i ({} : Track)).start + (ts.getD i {}).length →
      scanLower lower ts j ≤ sector →
      sector < (ts.getD j ({} : Track)).start + (ts.getD j {}).length →
      i = j := by
  have key : ∀ i j, i < ts.length → j < ts.length → i < j →
      sector < (ts.getD i ({} : Track)).start + (ts.getD i {}).length →
      scanLower lower ts j ≤ sector → False := by
    intro i j hi hj hij hui hlj
    obtain ⟨k, rfl⟩ : ∃ k, j = k + 1 := ⟨j - 1, by omega⟩
    have hsl : scanLower lower ts (k + 1)
        = m32 ((ts.getD k {}).start + (ts.getD k {}).length) := rfl
    have hkmem := getD_mem ts k (by omega)
    have hsl2 : scanLower lower ts (k + 1)
        = (ts.getD k ({} : Track)).start + (ts.getD k {}).length := by
      rw [hsl, m32_small (hnw _ hkmem)]
    have hmono := upper_mono ts hplain i k (by omega) (by omega)
    omega
  intro i j hi hj h1 h2 h3 h4
  rcases Nat.lt_trichotomy i j with h | h | h
  · exact (key i j hi hj h h2 h3).elim
  · exact h
  · exact (key j i hj hi h h4 h1).elim

/-- GetTrack reduces to the scan when its guard passes. -/
theorem getTrack_eq_scan (ts : List Track) (t0 lastT : Track)
    (h0 : ts.head? = some t0) (hgl : ts.getLast? = some lastT)
    (hlen : 2 ≤ ts.length) (sector : Nat)
    (hsec : sector ≤ MAX_REDBOOK_SECTOR) (hlt : sector < lastT.start) :
    getTrack ts sector = getTrackScan ts t0.start sector := by
  unfold getTrack
  rw [hgl]
  dsimp only
  rw [if_neg (by
    push_neg
    exact ⟨by omega, by unfold MIN_REDBOOK_TRACKS; omega, hlt⟩)]
  cases ts with
  | nil => exact Option.noConfusion h0
  | cons a l =>
    simp only [List.head?_cons, Option.some.injEq] at h0
    subst h0
    rfl

/-! Concrete fixtures used by witnesses and counterexamples. -/

/-- A 4704-byte backing file (exactly two raw 2352-byte sectors). -/
def fileA : MFile := { id := 0, len := 4704 }

/-- A second, distinct backing file. -/
def fileB : MFile := { id := 1, len := 2000000 }

/-- Uniform playback properties: 44.1 kHz stereo native-endian source
whose seeks always succeed. -/
def propsOk : MFile → FileProps :=
  fun _ => { rate := 44100, channels := 2, endianSys := true,
             seekOk := fun _ => true }

/-- A three-entry table (two audio tracks and the lead-out) in which
track 2's body starts at sector 150 while track 1 ends at sector 100,
so sectors 100..149 form track 2's pregap. -/
def tableGap : List Track :=
  [{ file := some fileB, start := 0, length := 100, skip := 0,
     sectorSize := 2352, number := 1, attr := 0 },
   { file := some fileB, start := 150, length := 300, skip := 235200,
     sectorSize := 2352, number := 2, attr := 0 },
   { file := none, start := 450, length := 0, skip := 0,
     sectorSize := 2352, number := 3, attr := 0 }]

/-- A minimal two-entry table: one audio track of 300 sectors starting
at sector 0, plus the lead-out. -/
def tableSmall : List Track :=
  [{ file := some fileB, start := 0, length := 300, skip := 0,
     sectorSize := 2352, number := 1, attr := 0 },
   { file := none, start := 300, length := 0, skip := 0,
     sectorSize := 2352, number := 2, attr := 0 }]

/-- A player with an active-looking session, for observing what
StopAudio does and does not reset. -/
def playerBusy : Player :=
  { trackFile := some fileB, channelExists := true, channelEnabled := true,
    channelRate := 44100, addFrames := MixFn.s16, startSector := 500,
    totalRedbookFrames := 99, playedTrackFrames := 7,
    totalTrackFrames := 58212, isPlaying := true, isPaused := true }

/-- C1: PlayAudioSector(140, 50) on tableGap lands 10 sectors inside
track 2's pregap (track start 150).  The claim and the code's own
comment ("we deduct the difference from the playback duration") require
the effective length 50 - 10 = 40; the code executes
`len -= relative_start` with relative_start = -10 and records 60,
lengthening the request instead of shortening it.  The call succeeds
and the recorded session length is 60, demonstrating the slip. -/
theorem c1_pregap_lengthens_not_shortens :
    (playAudioSector tableGap propsOk {} 140 50).1 = true
    ∧ (playAudioSector tableGap propsOk {} 140 50).2.totalRedbookFrames = 60
    ∧ (playAudioSector tableGap propsOk {} 140 50).2.totalRedbookFrames ≠ 40 := by
  refine ⟨rfl, rfl, by decide⟩

/-- C6: every sanity-check failure of PlayAudioSector — zero length,
failed lookup of the (truncated) start sector, a data track (attr 0x40)
or a track without a source — stops audio (flags cleared, output
disabled when a channel exists) and returns false, leaving every
playback-session field exactly as it was. -/
theorem c6_play_guard_failures_stop (tracks : List Track)
    (props : MFile → FileProps) (p : Player) (start len : Nat) :
    (len = 0 →
      playAudioSector tracks props p start len = (false, stopAudioState p))
    ∧ (getTrack tracks (start % 4294967296) = none →
      playAudioSector tracks props p start len = (false, stopAudioState p))
    ∧ (∀ t, getTrack tracks (start % 4294967296) = some t →
        t.attr = 0x40 ∨ t.file = none →
        playAudioSector tracks props p start len = (false, stopAudioState p))
    ∧ (stopAudioState p).startSector = p.startSector
    ∧ (stopAudioState p).totalRedbookFrames = p.totalRedbookFrames
    ∧ (stopAudioState p).playedTrackFrames = p.playedTrackFrames
    ∧ (stopAudioState p).totalTrackFrames = p.totalTrackFrames
    ∧ (stopAudioState p).trackFile = p.trackFile
    ∧ (stopAudioState p).isPlaying = false
    ∧ (stopAudioState p).isPaused = false
    ∧ (p.channelExists = true → (stopAudioState p).channelEnabled = false) := by
  refine ⟨?_, ?_, ?_, rfl, rfl, rfl, rfl, rfl, rfl, rfl, ?_⟩
  · intro hlen
    unfold playAudioSector
    cases hg : getTrack tracks (start % 4294967296) with
    | none => simp
    | some t =>
      cases hf : t.file with
      | none => simp [hf]
      | some f => simp [hf, hlen]
  · intro hg
    unfold playAudioSector
    simp [hg]
  · intro t hg hbad
    unfold playAudioSector
    rw [hg]
    cases hf : t.file with
    | none => simp [hf]
    | some f =>
      rcases hbad with hattr | hfile
      · simp [hf, hattr]
      · rw [hf] at hfile; exact absurd hfile (by simp)
  · intro hch
    simp [stopAudioState, hch]

/-- C6 witness: a data-track play request on a concrete table is
refused with a stop. -/
theorem c6_play_guard_failures_stop_witness :
    playAudioSector
      [{ file := some fileA, start := 0, length := 300, skip := 0,
         sectorSize := 2048, number := 1, attr := 0x40 },
       { file := none, start := 300, length := 0, skip := 0,
         sectorSize := 2048, number := 2, attr := 0 }]
      propsOk playerBusy 10 5
    = (false, stopAudioState playerBusy) :=
  (c6_play_guard_failures_stop _ propsOk playerBusy 10 5).2.2.1
    { file := some fileA, start := 0, length := 300, skip := 0,
      sectorSize := 2048, number := 1, attr := 0x40 }
    (by decide) (Or.inl rfl)

/-- C7 counterexample: StopAudio does not drop the session fields.  On a
player whose session records start sector 500 over file fileB, the call
returns true but the start sector, requested length, frame counters and
track-source pointer all survive, so the claim's "the session's fields
are cleared" is false at this input. -/
theorem c7_stop_keeps_session_counterexample :
    (stopAudio playerBusy).1 = true
    ∧ (stopAudio playerBusy).2.startSector = 500
    ∧ (stopAudio playerBusy).2.totalRedbookFrames = 99
    ∧ (stopAudio playerBusy).2.playedTrackFrames = 7
    ∧ (stopAudio playerBusy).2.trackFile = some fileB
    ∧ (stopAudio playerBusy).2.trackFile ≠ none := by
  refine ⟨rfl, rfl, rfl, rfl, rfl, by decide⟩

/-- C7 (amended): StopAudio always succeeds, clears the playing and
paused flags and disables output (when a mixer channel exists), leaves
every session field unchanged, and is idempotent. -/
theorem c7_stop_clears_flags_idempotent (p : Player) :
    stopAudio p = (true, stopAudioState p)
    ∧ (stopAudioState p).isPlaying = false
    ∧ (stopAudioState p).isPaused = false
    ∧ (p.channelExists = true → (stopAudioState p).channelEnabled = false)
    ∧ (stopAudioState p).startSector = p.startSector
    ∧ (stopAudioState p).totalRedbookFrames = p.totalRedbookFrames
    ∧ (stopAudioState p).playedTrackFrames = p.playedTrackFrames
    ∧ (stopAudioState p).totalTrackFrames = p.totalTrackFrames
    ∧ (stopAudioState p).trackFile = p.trackFile
    ∧ (stopAudioState p).addFrames = p.addFrames
    ∧ stopAudioState (stopAudioState p) = stopAudioState p := by
  refine ⟨rfl, rfl, rfl, ?_, rfl, rfl, rfl, rfl, rfl, rfl, ?_⟩
  · intro hch; simp [stopAudioState, hch]
  · simp [stopAudioState]

/-- C7 witness: the amended statement applied to the busy player. -/
theorem c7_stop_clears_flags_idempotent_witness :
    stopAudio playerBusy = (true, stopAudioState playerBusy)
    ∧ (stopAudioState playerBusy).channelEnabled = false :=
  ⟨(c7_stop_clears_flags_idempotent playerBusy).1,
   (c7_stop_clears_flags_idempotent playerBusy).2.2.2.1 rfl⟩

/-- C3: when the current track uses a different backing source than the
previous track (and the arithmetic stays in machine range), the
previous track's length becomes its source's byte length minus its skip
divided by its sector size rounded up to whole sectors, the current
track's start becomes its own index frame count plus
prev.start + prev.length + currPregap, its skip resets to the
prestart-derived skip times its own sector size, shift increases by
prev.start + prev.length, and totalPregap resets to currPregap. -/
theorem c3_different_file_step
    (pre : List Track) (prev curr : Track) (shift : Int) (tp pg : Nat)
    (prestart : Int) (f : MFile)
    (hprev : prev.file = some f)
    (hfile : ¬ prev.file = curr.file)
    (hps : prestart = -1 ∨ (0 ≤ prestart ∧ prestart ≤ (curr.start : Int)
      ∧ curr.start < 2147483648))
    (hskiplen : (prev.skip : Int) ≤ f.len)
    (hflen : f.len - prev.skip < 2147483648)
    (hss : 0 < prev.sectorSize)
    (hnum1 : 2 ≤ curr.number)
    (hnum2 : prev.number + 1 = curr.number)
    (hbound : curr.start + prev.start
      + ((f.len.toNat - prev.skip) / prev.sectorSize + 1) + pg < 4294967296)
    (hshift0 : 0 ≤ shift)
    (hshift1 : shift + prev.start
      + (((f.len.toNat - prev.skip) / prev.sectorSize : Nat) + 1) < 2147483648)
    (hskipB : addTrackSkip curr prestart * curr.sectorSize < 4294967296) :
    ∃ prevLen : Nat,
      addTrack (pre ++ [prev]) shift tp curr prestart pg
        = some (pre ++ [{ prev with length := prevLen },
            { curr with
              start := curr.start + prev.start + prevLen + pg,
              skip := addTrackSkip curr prestart * curr.sectorSize }],
           shift + (prev.start : Int) + (prevLen : Int), pg)
      ∧ f.len.toNat - prev.skip ≤ prevLen * prev.sectorSize
      ∧ prevLen * prev.sectorSize
        < (f.len.toNat - prev.skip) + prev.sectorSize := by
  have hguard : ¬(0 ≤ prestart ∧ prestart > castInt32OfNat curr.start) := by
    rcases hps with h | ⟨h0, hle, hsm⟩
    · rintro ⟨h0, -⟩; omega
    · rw [castInt32OfNat_small hsm]
      rintro ⟨-, hgt⟩; omega
  refine ⟨(f.len.toNat - prev.skip) / prev.sectorSize
      + (if (f.len.toNat - prev.skip) % prev.sectorSize = 0 then 0 else 1),
    ?_, (ceil_len_spec hss).1, (ceil_len_spec hss).2⟩
  have hPLle : (f.len.toNat - prev.skip) / prev.sectorSize
      + (if (f.len.toNat - prev.skip) % prev.sectorSize = 0 then 0 else 1)
      ≤ (f.len.toNat - prev.skip) / prev.sectorSize + 1 := by
    split <;> omega
  have hmf : mfLength (some f) = f.len := rfl
  have htmp : i32 ((w32 (mfLength prev.file - prev.skip) : Nat) : Int)
      = ((f.len.toNat - prev.skip : Nat) : Int) := by
    rw [hprev, hmf]
    have h1 : f.len - (prev.skip : Int) = ((f.len.toNat - prev.skip : Nat) : Int) := by
      omega
    rw [h1, w32_coe_nat (by omega), i32_coe_nat (by omega)]
  have hD : diffLen (i32 ((w32 (mfLength prev.file - prev.skip) : Nat) : Int))
      prev.sectorSize
      = (f.len.toNat - prev.skip) / prev.sectorSize
        + (if (f.len.toNat - prev.skip) % prev.sectorSize = 0 then 0 else 1) := by
    rw [htmp, diffLen_nonneg (by omega)]
  rw [addTrack_last _ _ _ _ _ _ prev (List.getLast?_concat _) hguard]
  rw [placeTrack_diff _ _ _ _ _ _ hfile]
  dsimp only
  rw [hD]
  have hm1 : m32 (curr.start + prev.start
      + ((f.len.toNat - prev.skip) / prev.sectorSize
         + (if (f.len.toNat - prev.skip) % prev.sectorSize = 0 then 0 else 1)) + pg)
      = curr.start + prev.start
        + ((f.len.toNat - prev.skip) / prev.sectorSize
           + (if (f.len.toNat - prev.skip) % prev.sectorSize = 0 then 0 else 1)) + pg :=
    m32_small (by omega)
  have hm2 : m32 (prev.start
      + ((f.len.toNat - prev.skip) / prev.sectorSize
         + (if (f.len.toNat - prev.skip) % prev.sectorSize = 0 then 0 else 1)))
      = prev.start
        + ((f.len.toNat - prev.skip) / prev.sectorSize
           + (if (f.len.toNat - prev.skip) % prev.sectorSize = 0 then 0 else 1)) :=
    m32_small (by omega)
  have hsh : i32 ((w32 (shift + (prev.start : Int)
      + (((f.len.toNat - prev.skip) / prev.sectorSize
          + (if (f.len.toNat - prev.skip) % prev.sectorSize = 0 then 0 else 1) : Nat)
         : Int)) : Nat) : Int)
      = shift + (prev.start : Int)
        + (((f.len.toNat - prev.skip) / prev.sectorSize
            + (if (f.len.toNat - prev.skip) % prev.sectorSize = 0 then 0 else 1) : Nat)
           : Int) := by
    have h1 : shift + (prev.start : Int)
        + (((f.len.toNat - prev.skip) / prev.sectorSize
            + (if (f.len.toNat - prev.skip) % prev.sectorSize = 0 then 0 else 1) : Nat)
           : Int)
        = ((shift.toNat + prev.start
            + ((f.len.toNat - prev.skip) / prev.sectorSize
               + (if (f.len.toNat - prev.skip) % prev.sectorSize = 0 then 0 else 1))
            : Nat) : Int) := by
      omega
    rw [h1, w32_coe_nat (by omega), i32_coe_nat (by omega)]
  rw [hm1, hm2, hsh]
  rw [if_neg (by push_neg; exact ⟨by omega, hnum2, by omega⟩)]
  rw [List.dropLast_concat, m32_small hskipB]

/-- C3 witness: track 2 in file B following track 1 (4704 bytes in file
A at sector size 2352, skip 0): track 1's length becomes 2, track 2
starts at its index frame 7 plus 0 + 2 + pregap 10, shift grows by 2
and totalPregap resets to 10. -/
theorem c3_different_file_step_witness :
    ∃ prevLen : Nat,
      addTrack
        [{ file := some fileA, start := 0, length := 0, skip := 0,
           sectorSize := 2352, number := 1, attr := 0 }]
        0 150
        { file := some fileB, start := 7, length := 0, skip := 0,
          sectorSize := 2352, number := 2, attr := 0 }
        (-1) 10
      = some ([{ file := some fileA, start := 0, length := prevLen, skip := 0,
                 sectorSize := 2352, number := 1, attr := 0 },
               { file := some fileB,
                 start := 7 + 0 + prevLen + 10,
                 length := 0,
                 skip := addTrackSkip
                   { file := some fileB, start := 7, length := 0, skip := 0,
                     sectorSize := 2352, number := 2, attr := 0 } (-1) * 2352,
                 sectorSize := 2352, number := 2, attr := 0 }],
              (0 : Int) + (0 : Nat) + (prevLen : Int), 10)
      ∧ fileA.len.toNat - 0 ≤ prevLen * 2352
      ∧ prevLen * 2352 < (fileA.len.toNat - 0) + 2352 :=
  c3_different_file_step
    []
    { file := some fileA, start := 0, length := 0, skip := 0,
      sectorSize := 2352, number := 1, attr := 0 }
    { file := some fileB, start := 7, length := 0, skip := 0,
      sectorSize := 2352, number := 2, attr := 0 }
    0 150 10 (-1) fileA rfl (by decide) (Or.inl rfl) (by decide) (by decide)
    (by decide) (by decide) (by decide) (by decide) (by decide) (by decide)
    (by decide)

/-- C4: AddTrack fails exactly when a prestart is present exceeding the
track's index-1 start, or, for a non-first track, when the (stored)
track number is at most 1, does not follow the previous track's number,
or the placed start precedes the previous track's (placed) end;
otherwise the track is appended (the first track as the sole entry, a
later track after the length-finalized previous one).  A failing
AddTrack step fails the whole cue-sheet load: no table is produced. -/
theorem c4_addtrack_failure_conditions :
    (∀ (tracks : List Track) (shift : Int) (tp : Nat) (curr : Track)
       (prestart : Int) (pg : Nat),
      (addTrack tracks shift tp curr prestart pg = none ↔
        (0 ≤ prestart ∧ prestart > castInt32OfNat curr.start)
        ∨ ∃ prev, tracks.getLast? = some prev ∧
            (curr.number ≤ 1 ∨ prev.number + 1 ≠ curr.number
             ∨ (placeTrack prev curr shift tp
                  (addTrackSkip curr prestart) pg).2.1.start
               < m32 (prev.start
                 + (placeTrack prev curr shift tp
                      (addTrackSkip curr prestart) pg).1)))
      ∧ (∀ r, addTrack tracks shift tp curr prestart pg = some r →
          (tracks = [] ∧ ∃ c, r.1 = [c])
          ∨ (∃ prev, tracks.getLast? = some prev
              ∧ r.1 = tracks.dropLast
                ++ [{ prev with
                      length := (placeTrack prev curr shift tp
                        (addTrackSkip curr prestart) pg).1 },
                    (placeTrack prev curr shift tp
                      (addTrackSkip curr prestart) pg).2.1])))
    ∧ (∀ (ds1 : List RawTrack) (r : RawTrack) (ds2 : List RawTrack)
         (st : List Track × Int × Nat),
        ds1.foldlM cueStep ([], (0 : Int), (0 : Nat)) = some st →
        cueStep st r = none →
        loadCueTracks (ds1 ++ r :: ds2) = none) := by
  constructor
  · intro tracks shift tp curr prestart pg
    constructor
    · unfold addTrack
      split
      · next hg =>
        exact ⟨fun _ => Or.inl hg, fun _ => rfl⟩
      · next hg =>
        cases hlast : tracks.getLast? with
        | none =>
          dsimp only
          constructor
          · intro h; exact absurd h (by simp)
          · rintro (h | ⟨prev, hp, -⟩)
            · exact absurd h hg
            · exact absurd hp (by simp)
        | some prev =>
          dsimp only
          split
          · next hchk =>
            exact ⟨fun _ => Or.inr ⟨prev, rfl, hchk⟩, fun _ => rfl⟩
          · next hchk =>
            constructor
            · intro h; exact absurd h (by simp)
            · rintro (h | ⟨prev2, hp2, hc2⟩)
              · exact absurd h hg
              · obtain rfl := Option.some.inj hp2
                exact absurd hc2 hchk
    · intro r hr
      unfold addTrack at hr
      rw [if_neg ?hgneg] at hr
      case hgneg =>
        intro hg
        rw [if_pos hg] at hr
        exact absurd hr (by simp)
      revert hr
      cases hlast : tracks.getLast? with
      | none =>
        intro hr
        dsimp only at hr
        refine Or.inl ⟨List.getLast?_eq_none_iff.mp hlast, ?_⟩
        exact ⟨_, congrArg Prod.fst (Option.some.inj hr).symm⟩
      | some prev =>
        intro hr
        dsimp only at hr
        split at hr
        · exact absurd hr (by simp)
        · exact Or.inr ⟨prev, rfl,
            congrArg Prod.fst (Option.some.inj hr).symm⟩
  · intro ds1 r ds2 st h1 h2
    have hne : ds1 ++ r :: ds2 ≠ [] := by cases ds1 <;> simp
    rw [loadCueTracks_eq _ hne, List.foldlM_append, h1]
    show ((r :: ds2).foldlM cueStep st).bind _ = none
    rw [List.foldlM_cons, h2]
    rfl

/-- A well-formed opening descriptor: track 1, audio, index 1 at
frame 0, stored in fileA. -/
def rGood : RawTrack :=
  { number := 1, start := 0, sectorSize := 2352, attr := 0,
    file := some fileA }

/-- A descriptor whose index-0 prestart (500) exceeds its index-1 start
(3), which AddTrack must reject. -/
def rBadPrestart : RawTrack :=
  { number := 2, start := 3, prestart := 500, sectorSize := 2352, attr := 0,
    file := some fileA }

/-- C4 witness: a prestart beyond the start fails AddTrack directly, and
the same failure inside a cue-sheet fold fails the whole load. -/
theorem c4_addtrack_failure_conditions_witness :
    addTrack [] 0 0 { start := 3, number := 1 } 5 0 = none
    ∧ loadCueTracks [rGood, rBadPrestart] = none :=
  ⟨(c4_addtrack_failure_conditions.1 [] 0 0 { start := 3, number := 1 } 5 0).1.mpr
      (Or.inl (by decide)),
   c4_addtrack_failure_conditions.2 [rGood] rBadPrestart []
     ([{ file := some fileA, start := 0, length := 0, skip := 0,
         sectorSize := 2352, number := 1, attr := 0, mode2 := false }],
      (0 : Int), (0 : Nat))
     (by decide) (by decide)⟩

/-- A cue whose track 2 (sharing track 1's file) starts before track 1:
the same-file length computation wraps around the uint32 range. -/
def cueWrap : List RawTrack :=
  [{ number := 1, start := 750, sectorSize := 2352, attr := 0,
     file := some fileA },
   { number := 2, start := 0, sectorSize := 2352, attr := 0,
     file := some fileA }]

/-- A single-track cue whose only TRACK is numbered 7. -/
def cueSeven : List RawTrack :=
  [{ number := 7, start := 0, sectorSize := 2352, attr := 0,
     file := some fileA }]

/-- A single-track cue whose track 1 has index 1 at frame 150, leaving
sectors 0..149 before the first track's body. -/
def cuePregap1 : List RawTrack :=
  [{ number := 1, start := 150, sectorSize := 2352, attr := 0,
     file := some fileA }]

/-- A 500000-sector cooked ISO (larger than the 400000-frame Redbook
address space) with a valid PVD. -/
def bigIso : ByteFile :=
  { len := 1024000000,
    byte := fun i =>
      if i = 32768 then 1 else if i = 32769 then 67 else
      if i = 32770 then 68 else if i = 32771 then 48 else
      if i = 32772 then 48 else if i = 32773 then 49 else
      if i = 32774 then 1 else 0 }

/-- The real track of the table built from the one-good-track cue. -/
def tsGoodT1 : Track :=
  { file := some fileA, start := 0, length := 2, skip := 0,
    sectorSize := 2352, number := 1, attr := 0 }

/-- The lead-out of the table built from the one-good-track cue. -/
def tsGoodLead : Track :=
  { file := none, start := 2, length := 0, skip := 0,
    sectorSize := 2352, number := 2, attr := 0 }

/-- The table built from the one-good-track cue. -/
def tsGood : List Track := [tsGoodT1, tsGoodLead]

/-- C2 counterexample: four successfully built tables refute the claim
as stated.  (i) cueWrap builds a table whose starts are 750, 0, 752 —
not non-decreasing — and whose first adjacent pair violates
start + length ≤ next start (the uint32 length wrapped to 4294966546).
(ii) cueSeven builds a table numbered 7, 8 rather than 1..N.
(iii) cuePregap1 builds a table whose lead-out starts at 152, yet
sector 0 ∈ [0, 152) fails the GetTrack lookup (the scan never looks
below the first track's start).  (iv) a 500000-sector ISO builds a
table whose lead-out starts past the maximum disc address, and sector
400000 ∈ [0, 500000) fails the lookup at the guard. -/
theorem c2_table_invariants_counterexample :
    (∃ ts, loadCueTracks cueWrap = some ts
      ∧ ts.map Track.start = [750, 0, 752]
      ∧ ¬ ((ts.getD 0 {}).start ≤ (ts.getD 1 {}).start)
      ∧ ¬ ((ts.getD 0 {}).start + (ts.getD 0 {}).length
            ≤ (ts.getD 1 {}).start))
    ∧ (∃ ts, loadCueTracks cueSeven = some ts
        ∧ ts.map Track.number = [7, 8])
    ∧ (∃ ts, loadCueTracks cuePregap1 = some ts
        ∧ 0 < (ts.getLastD {}).start ∧ getTrack ts 0 = none)
    ∧ (∃ ts, loadIsoFile 0 bigIso = some ts
        ∧ 400000 < (ts.getLastD {}).start ∧ getTrack ts 400000 = none) := by
  refine ⟨⟨[{ file := some fileA, start := 750, length := 4294966546,
              skip := 0, sectorSize := 2352, number := 1, attr := 0 },
            { file := some fileA, start := 0, length := 752,
              skip := 4293203296, sectorSize := 2352, number := 2, attr := 0 },
            { file := none, start := 752, length := 0, skip := 0,
              sectorSize := 2352, number := 3, attr := 0 }],
          by decide, by decide, by decide, by decide⟩,
        ⟨[{ file := some fileA, start := 0, length := 2, skip := 0,
            sectorSize := 2352, number := 7, attr := 0 },
          { file := none, start := 2, length := 0, skip := 0,
            sectorSize := 2352, number := 8, attr := 0 }],
         by decide, by decide⟩,
        ⟨[{ file := some fileA, start := 150, length := 2, skip := 0,
            sectorSize := 2352, number := 1, attr := 0 },
          { file := none, start := 152, length := 0, skip := 0,
            sectorSize := 2352, number := 2, attr := 0 }],
         by decide, by decide, by decide⟩,
        ⟨[isoDataTrack 0 bigIso 2048 false, isoLeadout bigIso 2048],
         by decide, by decide, by decide⟩⟩

/-- C2 (amended): for every successfully built track table (cue sheet
or sniffed ISO) in which no adjacent start+length sum exceeds the
uint32 range, the table has at least two entries; track numbers
increase consecutively by one from the first track's number, which is
at least 1 (it is exactly 1 whenever the first descriptor is numbered
1, which the code asserts only in debug builds); starts are
non-decreasing with track[i].start + track[i].length ≤
track[i+1].start; every sector from the first track's start up to the
lead-out's start (within the maximum disc address) resolves via
GetTrack to exactly one track's scan interval; and a sector in the gap
before a track's nominal start resolves to that following track. -/
theorem c2_table_invariants (ts : List Track)
    (hbuild : (∃ ds, loadCueTracks ds = some ts)
      ∨ (∃ fid f, loadIsoFile fid f = some ts))
    (hnw : ∀ t ∈ ts, t.start + t.length < 4294967296) :
    2 ≤ ts.length
    ∧ (∀ t0, ts.head? = some t0 →
        1 ≤ t0.number
        ∧ ∀ i, i < ts.length → (ts.getD i {}).number = t0.number + i)
    ∧ (∀ i, i + 1 < ts.length →
        (ts.getD i {}).start + (ts.getD i {}).length
          ≤ (ts.getD (i+1) {}).start
        ∧ (ts.getD i {}).start ≤ (ts.getD (i+1) {}).start)
    ∧ (∀ t0 lastT sector, ts.head? = some t0 → ts.getLast? = some lastT →
        sector ≤ MAX_REDBOOK_SECTOR → t0.start ≤ sector →
        sector < lastT.start →
        ∃ i, ∃ (hi : i < ts.length),
          getTrack ts sector = some (ts.getD i {})
          ∧ scanLower t0.start ts i ≤ sector
          ∧ sector < (ts.getD i {}).start + (ts.getD i {}).length
          ∧ ∀ j, j < ts.length → scanLower t0.start ts j ≤ sector →
              sector < (ts.getD j {}).start + (ts.getD j {}).length → j = i)
    ∧ (∀ i sector, i + 1 < ts.length → sector ≤ MAX_REDBOOK_SECTOR →
        (ts.getD i {}).start + (ts.getD i {}).length ≤ sector →
        sector < (ts.getD (i+1) {}).start →
        getTrack ts sector = some (ts.getD (i+1) {})) := by
  have hbase : TableInv ts ∧ 2 ≤ ts.length := by
    rcases hbuild with ⟨ds, h⟩ | ⟨fid, f, h⟩
    · exact loadCueTracks_inv ds ts h
    · exact loadIsoFile_inv fid f ts h
  obtain ⟨⟨hCN, hCU, hbounds, hhead⟩, hlen2⟩ := hbase
  have hne : ts ≠ [] := by
    intro h; rw [h] at hlen2; simp at hlen2
  have hplain : ∀ i, i + 1 < ts.length →
      (ts.getD i ({} : Track)).start + (ts.getD i {}).length
        ≤ (ts.getD (i+1) {}).start := by
    intro i hi
    have h := chain_getD ts hCU i hi
    unfold chainUpper at h
    rwa [m32_small (hnw _ (getD_mem ts i (by omega)))] at h
  have hcov : ∀ t0 lastT sector, ts.head? = some t0 →
      ts.getLast? = some lastT →
      sector ≤ MAX_REDBOOK_SECTOR → t0.start ≤ sector →
      sector < lastT.start →
      ∃ i, ∃ (hi : i < ts.length),
        getTrack ts sector = some (ts.getD i {})
        ∧ scanLower t0.start ts i ≤ sector
        ∧ sector < (ts.getD i {}).start + (ts.getD i {}).length
        ∧ ∀ j, j < ts.length → scanLower t0.start ts j ≤ sector →
            sector < (ts.getD j {}).start + (ts.getD j {}).length → j = i := by
    intro t0 lastT sector h0 hgl hsec hlow hup
    have hld := getLast?_getD ts lastT hgl
    obtain ⟨i, hi, hscan, hslow, hsup⟩ := getTrackScan_covers ts t0.start
      sector hne hlow (fun lt2 hl2 => by
        obtain rfl : lastT = lt2 := by
          rw [hgl] at hl2; exact Option.some.inj hl2
        have hmem : lastT ∈ ts := by
          rw [← hld]; exact getD_mem ts _ (by omega)
        rw [m32_small (hnw _ hmem)]
        omega)
    have hsup' : sector < (ts.getD i {}).start + (ts.getD i {}).length := by
      rwa [m32_small (hnw _ (getD_mem ts i hi))] at hsup
    refine ⟨i, hi, ?_, hslow, hsup', ?_⟩
    · rw [getTrack_eq_scan ts t0 lastT h0 hgl hlen2 sector hsec hup]
      exact hscan
    · intro j hj hjl hju
      exact scan_unique ts t0.start sector hplain hnw j i hj hi hjl hju
        hslow hsup'
  refine ⟨hlen2, ?_, ?_, hcov, ?_⟩
  · intro t0 h0
    have h00 := head?_getD ts t0 h0
    refine ⟨hhead t0 h0 hlen2, ?_⟩
    intro i hi
    have := number_getD ts hCN i hi
    rwa [h00] at this
  · intro i hi
    exact ⟨hplain i hi, by have := hplain i hi; omega⟩
  · intro i sector hi hsec hup hlow2
    obtain ⟨t0, h0⟩ : ∃ t0, ts.head? = some t0 := by
      cases ts with
      | nil => exact absurd rfl hne
      | cons a l => exact ⟨a, rfl⟩
    obtain ⟨lastT, hgl⟩ : ∃ lt2, ts.getLast? = some lt2 := by
      cases hgll : ts.getLast? with
      | none => exact absurd (List.getLast?_eq_none_iff.mp hgll) hne
      | some x => exact ⟨x, rfl⟩
    have h00 := head?_getD ts t0 h0
    have hld := getLast?_getD ts lastT hgl
    have hstart0 : t0.start ≤ sector := by
      have h1 := upper_mono ts hplain 0 i (by omega) (by omega)
      rw [← h00]
      omega
    have hlast2 : sector < lastT.start := by
      have h1 := start_mono ts hplain (i+1) (ts.length - 1) (by omega)
        (by omega)
      rw [← hld]
      omega
    obtain ⟨i', hi', hgt, hslow', hsup', huniq⟩ :=
      hcov t0 lastT sector h0 hgl hsec hstart0 hlast2
    have hmem : ts.getD i ({} : Track) ∈ ts := getD_mem ts i (by omega)
    have heq : i + 1 = i' := by
      refine huniq (i+1) (by omega) ?_ ?_
      · show scanLower t0.start ts (i+1) ≤ sector
        have : scanLower t0.start ts (i+1)
            = m32 ((ts.getD i {}).start + (ts.getD i {}).length) := rfl
        rw [this, m32_small (hnw _ hmem)]
        exact hup
      · have h1 := hplain i hi
        omega
    rw [← heq] at hgt
    exact hgt

/-- C2 witness: the amended invariants hold of the concrete table built
from the one-good-track cue. -/
theorem c2_table_invariants_witness :
    2 ≤ tsGood.length
    ∧ (∀ t0, tsGood.head? = some t0 →
        1 ≤ t0.number
        ∧ ∀ i, i < tsGood.length →
            (tsGood.getD i {}).number = t0.number + i) := by
  have h := c2_table_invariants tsGood (Or.inl ⟨[rGood], by decide⟩)
    (by decide)
  exact ⟨h.1, h.2.1⟩

/-- C5 counterexample: PlayAudioSector and ReadSector take 64-bit
sector arguments but pass them to GetTrack through a uint32_t
parameter.  Sector 2^32 exceeds the maximum valid disc address, yet it
truncates to sector 0 of tableSmall and both requests succeed, refuting
"any ReadSector or PlayAudioSector request at such a sector returns
failure". -/
theorem c5_sector_truncation_counterexample :
    4294967296 > MAX_REDBOOK_SECTOR
    ∧ (playAudioSector tableSmall propsOk {} 4294967296 10).1 = true
    ∧ readSector tableSmall false 4294967296 = true := by
  refine ⟨by decide, rfl, rfl⟩

/-- C5 (amended): for every sector expressible in 32 bits, if it
exceeds the maximum valid disc address, or the table has fewer than two
entries, or it is at or beyond the lead-out's start, then GetTrack
returns not-found and every ReadSector and PlayAudioSector request at
that sector fails (the playback request also forcing a stop). -/
theorem c5_out_of_range_fails (tracks : List Track) (sector : Nat)
    (hs : sector < 4294967296)
    (hcond : sector > MAX_REDBOOK_SECTOR ∨ tracks.length < MIN_REDBOOK_TRACKS
      ∨ ∃ lastT, tracks.getLast? = some lastT ∧ sector ≥ lastT.start) :
    getTrack tracks sector = none
    ∧ (∀ raw, readSector tracks raw sector = false)
    ∧ (∀ props p len,
        playAudioSector tracks props p sector len = (false, stopAudioState p)) := by
  have hgt : getTrack tracks sector = none := by
    unfold getTrack
    cases hl : tracks.getLast? with
    | none => rfl
    | some lastT =>
      have hc : sector > MAX_REDBOOK_SECTOR ∨ tracks.length < MIN_REDBOOK_TRACKS
          ∨ sector ≥ lastT.start := by
        rcases hcond with h | h | ⟨l2, hl2, hge⟩
        · exact Or.inl h
        · exact Or.inr (Or.inl h)
        · rw [hl] at hl2
          exact Or.inr (Or.inr (Option.some.inj hl2 ▸ hge))
      dsimp only
      rw [if_pos hc]
  have hmod : sector % 4294967296 = sector := Nat.mod_eq_of_lt hs
  refine ⟨hgt, ?_, ?_⟩
  · intro raw
    unfold readSector
    rw [hmod, hgt]
  · intro props p len
    unfold playAudioSector
    rw [hmod, hgt]

/-- C5 witness: sector 400000 (just past the maximum disc address) on
the concrete small table fails the lookup, the read and the play. -/
theorem c5_out_of_range_fails_witness :
    getTrack tableSmall 400000 = none
    ∧ readSector tableSmall true 400000 = false
    ∧ playAudioSector tableSmall propsOk playerBusy 400000 5
      = (false, stopAudioState playerBusy) := by
  have h := c5_out_of_range_fails tableSmall 400000 (by decide)
    (Or.inl (by decide))
  exact ⟨h.1, h.2.1 true, h.2.2 propsOk playerBusy 5⟩

/-- C8: for a uint32 sample rate and a requested length within the
Redbook disc capacity, the uint64 required-PCM-frame computation of
PlayAudioSector does not wrap (rate * len + 74 < 2^64) and equals the
exact integer ceiling of rate * len / 75. -/
theorem c8_required_frames_exact_ceiling (rate len : Nat)
    (hr : rate < 4294967296) (hl : len ≤ MAX_REDBOOK_SECTOR + 1) :
    rate * len + 74 < 18446744073709551616
    ∧ totalTrackFramesCalc rate len = (rate * len + 74) / 75
    ∧ rate * len ≤ 75 * totalTrackFramesCalc rate len
    ∧ 75 * totalTrackFramesCalc rate len < rate * len + 75 := by
  have hbound : rate * len + 74 < 18446744073709551616 := by
    have h1 : rate * len ≤ 4294967295 * 400000 := by
      apply Nat.mul_le_mul
      · omega
      · simpa [MAX_REDBOOK_SECTOR] using hl
    omega
  have hcalc : totalTrackFramesCalc rate len = (rate * len + 74) / 75 := by
    unfold totalTrackFramesCalc REDBOOK_FRAMES_PER_SECOND
    rw [Nat.mod_eq_of_lt hbound]
  refine ⟨hbound, hcalc, ?_, ?_⟩
  · have hdm := Nat.div_add_mod (rate * len + 74) 75
    have hml : (rate * len + 74) % 75 < 75 := Nat.mod_lt _ (by omega)
    rw [hcalc]
    omega
  · have hdm := Nat.div_add_mod (rate * len + 74) 75
    rw [hcalc]
    omega

/-- C8 witness: 44.1 kHz and 60 Redbook sectors need
ceil(44100 * 60 / 75) = 35280 PCM frames. -/
theorem c8_required_frames_exact_ceiling_witness :
    totalTrackFramesCalc 44100 60 = (44100 * 60 + 74) / 75
    ∧ 44100 * 60 ≤ 75 * totalTrackFramesCalc 44100 60 :=
  ⟨(c8_required_frames_exact_ceiling 44100 60 (by decide) (by decide)).2.1,
   (c8_required_frames_exact_ceiling 44100 60 (by decide) (by decide)).2.2.1⟩

/-- A 300-sector cooked ISO: byte offset 16 * 2048 = 32768 holds a
valid Primary Volume Descriptor (type 1, "CD001", version 1). -/
def isoCooked : ByteFile :=
  { len := 614400,
    byte := fun i =>
      if i = 32768 then 1 else if i = 32769 then 67 else
      if i = 32770 then 68 else if i = 32771 then 48 else
      if i = 32772 then 48 else if i = 32773 then 49 else
      if i = 32774 then 1 else 0 }

/-- An all-zero file that no geometry probe accepts. -/
def isoBlank : ByteFile := { len := 100000, byte := fun _ => 0 }

/-- A 2^31-byte image with a valid Primary Volume Descriptor: large
enough that getLength()'s static_cast<int> wraps negative. -/
def iso2G : ByteFile :=
  { len := 2147483648,
    byte := fun i =>
      if i = 32768 then 1 else if i = 32769 then 67 else
      if i = 32770 then 68 else if i = 32771 then 48 else
      if i = 32772 then 48 else if i = 32773 then 49 else
      if i = 32774 then 1 else 0 }

/-- C9 counterexample: a 2^31-byte cooked image loads successfully,
but its data track does not span the whole file.  The file holds
1048576 cooked sectors, yet getLength() truncates the byte length
through static_cast<int> to -2^31 before the division, and the stored
uint32 length is 4293918720, refuting the claim's "spanning the whole
file" as stated for every image. -/
theorem c9_iso_sniff_probe_order_counterexample :
    loadIsoFile 0 iso2G
      = some [isoDataTrack 0 iso2G 2048 false, isoLeadout iso2G 2048]
    ∧ iso2G.len / 2048 = 1048576
    ∧ (isoDataTrack 0 iso2G 2048 false).length = 4293918720
    ∧ (isoDataTrack 0 iso2G 2048 false).length ≠ iso2G.len / 2048 := by
  refine ⟨by decide, by decide, by decide, by decide⟩

/-- C9 (amended): LoadIsoFile probes exactly the four
(sectorSize, mode2) geometries (2048, false), (2352, false),
(2336, true), (2352, true) in that order; a probe reads 2048 bytes at
byte offset 16 * sectorSize (plus 16 for raw 2352 non-mode2, plus 24
for mode2, missing bytes read as zero) and accepts when byte 0 = 1,
bytes 1..5 = "CD001", byte 6 = 1, or byte 8 = 1, bytes 9..13 = "CDROM",
byte 14 = 1; if no probe matches the load fails, and on success the
table is exactly the one data track (number 1, attr 0x40) whose length
is the int-truncated getLength() divided by the sector size — the
whole file's sector count whenever the file is smaller than 2^31
bytes — plus the lead-out (number 2) starting at that track's
length. -/
theorem c9_iso_sniff_probe_order (fid : Nat) (f : ByteFile) :
    (∀ ss m2, canReadPVD f ss m2 = true ↔
      (let seek := 16 * ss + (if ss = 2352 ∧ ¬m2 then 16 else 0)
        + (if m2 then 24 else 0)
       let pvd : Nat → Nat := fun i =>
         if seek + i < f.len then f.byte (seek + i) else 0
       (pvd 0 = 1 ∧ pvd 1 = 67 ∧ pvd 2 = 68 ∧ pvd 3 = 48 ∧ pvd 4 = 48
          ∧ pvd 5 = 49 ∧ pvd 6 = 1)
       ∨ (pvd 8 = 1 ∧ pvd 9 = 67 ∧ pvd 10 = 68 ∧ pvd 11 = 82 ∧ pvd 12 = 79
          ∧ pvd 13 = 77 ∧ pvd 14 = 1)))
    ∧ (loadIsoFile fid f = none ↔
        canReadPVD f 2048 false = false ∧ canReadPVD f 2352 false = false
        ∧ canReadPVD f 2336 true = false ∧ canReadPVD f 2352 true = false)
    ∧ (∀ ts, loadIsoFile fid f = some ts → ∃ ss m2,
        ((canReadPVD f 2048 false = true ∧ ss = 2048 ∧ m2 = false)
         ∨ (canReadPVD f 2048 false = false ∧ canReadPVD f 2352 false = true
            ∧ ss = 2352 ∧ m2 = false)
         ∨ (canReadPVD f 2048 false = false ∧ canReadPVD f 2352 false = false
            ∧ canReadPVD f 2336 true = true ∧ ss = 2336 ∧ m2 = true)
         ∨ (canReadPVD f 2048 false = false ∧ canReadPVD f 2352 false = false
            ∧ canReadPVD f 2336 true = false ∧ canReadPVD f 2352 true = true
            ∧ ss = 2352 ∧ m2 = true))
        ∧ ts = [isoDataTrack fid f ss m2, isoLeadout f ss]
        ∧ ts.length = 2
        ∧ (isoDataTrack fid f ss m2).number = 1
        ∧ (isoDataTrack fid f ss m2).attr = 0x40
        ∧ (isoDataTrack fid f ss m2).start = 0
        ∧ (isoDataTrack fid f ss m2).length = isoTrackLength f ss
        ∧ (f.len < 2147483648 →
            (isoDataTrack fid f ss m2).length = f.len / ss)
        ∧ (isoLeadout f ss).number = 2
        ∧ (isoLeadout f ss).start = (isoDataTrack fid f ss m2).length) := by
  refine ⟨?_, ?_, ?_⟩
  · intro ss m2
    simp [canReadPVD, BYTES_PER_RAW_REDBOOK_FRAME]
  · unfold loadIsoFile
    dsimp only [BYTES_PER_COOKED_REDBOOK_FRAME, BYTES_PER_RAW_REDBOOK_FRAME]
    split_ifs with h1 h2 h3 h4 <;> simp_all
  · intro ts hts
    unfold loadIsoFile at hts
    dsimp only [BYTES_PER_COOKED_REDBOOK_FRAME, BYTES_PER_RAW_REDBOOK_FRAME]
      at hts
    split_ifs at hts with h1 h2 h3 h4
    · dsimp only at hts
      obtain rfl := (Option.some.inj hts).symm
      exact ⟨2048, false, Or.inl ⟨h1, rfl, rfl⟩,
        rfl, rfl, rfl, rfl, rfl, rfl, isoTrackLength_small f _, rfl, rfl⟩
    · dsimp only at hts
      obtain rfl := (Option.some.inj hts).symm
      exact ⟨2352, false, Or.inr (Or.inl ⟨by simpa using h1, h2, rfl, rfl⟩),
        rfl, rfl, rfl, rfl, rfl, rfl, isoTrackLength_small f _, rfl, rfl⟩
    · dsimp only at hts
      obtain rfl := (Option.some.inj hts).symm
      exact ⟨2336, true, Or.inr (Or.inr (Or.inl
        ⟨by simpa using h1, by simpa using h2, h3, rfl, rfl⟩)),
        rfl, rfl, rfl, rfl, rfl, rfl, isoTrackLength_small f _, rfl, rfl⟩
    · dsimp only at hts
      obtain rfl := (Option.some.inj hts).symm
      exact ⟨2352, true, Or.inr (Or.inr (Or.inr
        ⟨by simpa using h1, by simpa using h2, by simpa using h3, h4, rfl, rfl⟩)),
        rfl, rfl, rfl, rfl, rfl, rfl, isoTrackLength_small f _, rfl, rfl⟩

/-- C9 witness: the cooked fixture is detected by the first probe as
2048-byte sectors, and the blank fixture fails the load. -/
theorem c9_iso_sniff_probe_order_witness :
    (∃ ss m2, ((canReadPVD isoCooked 2048 false = true ∧ ss = 2048
        ∧ m2 = false)
       ∨ (canReadPVD isoCooked 2048 false = false
          ∧ canReadPVD isoCooked 2352 false = true ∧ ss = 2352 ∧ m2 = false)
       ∨ (canReadPVD isoCooked 2048 false = false
          ∧ canReadPVD isoCooked 2352 false = false
          ∧ canReadPVD isoCooked 2336 true = true ∧ ss = 2336 ∧ m2 = true)
       ∨ (canReadPVD isoCooked 2048 false = false
          ∧ canReadPVD isoCooked 2352 false = false
          ∧ canReadPVD isoCooked 2336 true = false
          ∧ canReadPVD isoCooked 2352 true = true ∧ ss = 2352 ∧ m2 = true))
      ∧ [isoDataTrack 0 isoCooked 2048 false, isoLeadout isoCooked 2048]
        = [isoDataTrack 0 isoCooked ss m2, isoLeadout isoCooked ss]
      ∧ ([isoDataTrack 0 isoCooked 2048 false,
          isoLeadout isoCooked 2048] : List Track).length = 2
      ∧ (isoDataTrack 0 isoCooked ss m2).number = 1
      ∧ (isoDataTrack 0 isoCooked ss m2).attr = 0x40
      ∧ (isoDataTrack 0 isoCooked ss m2).start = 0
      ∧ (isoDataTrack 0 isoCooked ss m2).length = isoTrackLength isoCooked ss
      ∧ (isoCooked.len < 2147483648 →
          (isoDataTrack 0 isoCooked ss m2).length = isoCooked.len / ss)
      ∧ (isoLeadout isoCooked ss).number = 2
      ∧ (isoLeadout isoCooked ss).start
        = (isoDataTrack 0 isoCooked ss m2).length)
    ∧ loadIsoFile 5 isoBlank = none := by
  constructor
  · exact (c9_iso_sniff_probe_order 0 isoCooked).2.2
      [isoDataTrack 0 isoCooked 2048 false, isoLeadout isoCooked 2048]
      (by decide)
  · exact (c9_iso_sniff_probe_order 5 isoBlank).2.1.mpr
      ⟨by decide, by decide, by decide, by decide⟩

/-- C10: GetAudioTrackInfo(n) succeeds exactly when the table has at
least MIN_REDBOOK_TRACKS entries, 1 ≤ n ≤ 99 and n is strictly below
the entry count; on any successfully built table the lead-out's own
track number is at least the entry count and is therefore always
rejected, while GetAudioTracks reports the lead-out position (start
plus the 150-frame offset) together with the first and last playable
track numbers. -/
theorem c10_track_info_bounds (ts : List Track)
    (hbuild : (∃ ds, loadCueTracks ds = some ts)
      ∨ (∃ fid f, loadIsoFile fid f = some ts)) :
    (∀ n, (getAudioTrackInfo ts n).isSome = true ↔
      (MIN_REDBOOK_TRACKS ≤ ts.length ∧ 1 ≤ n ∧ n ≤ 99 ∧ n < ts.length))
    ∧ (∀ lastT, ts.getLast? = some lastT →
        ts.length ≤ lastT.number
        ∧ getAudioTrackInfo ts lastT.number = none)
    ∧ (∀ t0 lastT, ts.head? = some t0 → ts.getLast? = some lastT →
        getAudioTracks ts
          = some (t0.number, (ts.getD (ts.length - 2) {}).number,
              frames_to_msf (m32 (lastT.start + 150)))) := by
  have hbase : TableInv ts ∧ 2 ≤ ts.length := by
    rcases hbuild with ⟨ds, h⟩ | ⟨fid, f, h⟩
    · exact loadCueTracks_inv ds ts h
    · exact loadIsoFile_inv fid f ts h
  obtain ⟨⟨hCN, hCU, hbounds, hhead⟩, hlen2⟩ := hbase
  have hne : ts ≠ [] := by
    intro h; rw [h] at hlen2; simp at hlen2
  refine ⟨?_, ?_, ?_⟩
  · intro n
    unfold getAudioTrackInfo
    split
    · next hC =>
      simp only [Option.isSome_none, Bool.false_eq_true, false_iff]
      rintro ⟨ha, hb, hc, hd⟩
      rcases hC with h | h | h | h <;> omega
    · next hC =>
      push_neg at hC
      simp only [Option.isSome_some, true_iff]
      exact ⟨hC.1, hC.2.1, hC.2.2.1, hC.2.2.2⟩
  · intro lastT hgl
    obtain ⟨t0, h0⟩ : ∃ t0, ts.head? = some t0 := by
      cases ts with
      | nil => exact absurd rfl hne
      | cons a l => exact ⟨a, rfl⟩
    have h00 := head?_getD ts t0 h0
    have hld := getLast?_getD ts lastT hgl
    have hn0 : 1 ≤ t0.number := hhead t0 h0 hlen2
    have hnum := number_getD ts hCN (ts.length - 1) (by omega)
    rw [hld, h00] at hnum
    have hge : ts.length ≤ lastT.number := by omega
    refine ⟨hge, ?_⟩
    unfold getAudioTrackInfo
    rw [if_pos (Or.inr (Or.inr (Or.inr (by omega))))]
  · intro t0 lastT h0 hgl
    cases ts with
    | nil => exact absurd rfl hne
    | cons a l =>
      simp only [List.head?_cons, Option.some.injEq] at h0
      subst h0
      unfold getAudioTracks
      dsimp only
      rw [if_neg (by simp only [not_lt]; exact hlen2)]
      rw [hgl]
      have hgd : ((a :: l).getD ((a :: l).length - 2) a).number
          = ((a :: l).getD ((a :: l).length - 2) ({} : Track)).number := by
        rw [List.getD_eq_getElem _ _ (by simp; omega),
            List.getD_eq_getElem _ _ (by simp; omega)]
      rw [hgd]

/-- C10 witness: on the concrete two-entry table, track 1 succeeds,
track 0 and the lead-out's number 2 are rejected, and GetAudioTracks
reports first 1, last playable 1, lead-out MSF 00:02:02. -/
theorem c10_track_info_bounds_witness :
    ((getAudioTrackInfo tsGood 1).isSome = true ↔
      (MIN_REDBOOK_TRACKS ≤ tsGood.length ∧ 1 ≤ 1 ∧ 1 ≤ 99
        ∧ 1 < tsGood.length))
    ∧ tsGood.length ≤ 2
    ∧ getAudioTrackInfo tsGood 2 = none
    ∧ getAudioTracks tsGood
      = some (1, (tsGood.getD (tsGood.length - 2) {}).number,
          frames_to_msf (m32 (2 + 150))) := by
  have h := c10_track_info_bounds tsGood (Or.inl ⟨[rGood], by decide⟩)
  have h2 := h.2.1 tsGoodLead (by decide)
  have h3 := h.2.2 tsGoodT1 tsGoodLead (by decide) (by decide)
  exact ⟨h.1 1, h2.1, h2.2, h3⟩

end CdromImage
